import Mathlib

/-!
Verification of the trading core of a prediction-market bot.

The development shallowly embeds the Rust sources: prices and sizes
(f64 in the source) are modelled as rationals, machine integers as Nat
or Int, wall-clock reads as explicit timestamp parameters, and fallible
operations as Option.  Each definition is translated from the function
of the same name in the repository; the claims are then settled as
theorems about those definitions.
-/

namespace PolyBot

/-- Single level in an order book: price plus size at that level.
Mirrors DepthLevel in market/data.rs. -/
structure DepthLevel where
  price : ℚ
  size : ℚ
deriving DecidableEq, Repr

/-- VWAP calculation result, mirrors VwapResult in market/data.rs. -/
structure VwapResult where
  vwap : ℚ
  total_size : ℚ
  levels_used : ℕ
deriving DecidableEq, Repr

/-- Full order book for a token, mirrors OrderBook in market/data.rs.
The nanosecond timestamp is a Nat (u64 in the source). -/
structure OrderBook where
  token_id : String
  bids : List DepthLevel
  asks : List DepthLevel
  timestamp_ns : ℕ
deriving DecidableEq, Repr

/-- The depth-walking loop shared by vwap_buy and vwap_sell in
market/data.rs: walk the levels in order, consuming
min(remaining, level.size) at each, until remaining is exhausted.
Returns (total_cost, total_filled, levels_used). -/
def vwapLoop : List DepthLevel → ℚ → ℚ × ℚ × ℕ
  | [], _ => (0, 0, 0)
  | level :: rest, remaining =>
    if remaining ≤ 0 then (0, 0, 0)
    else
      let fill_size := min remaining level.size
      let acc := vwapLoop rest (remaining - fill_size)
      (fill_size * level.price + acc.1, fill_size + acc.2.1, acc.2.2 + 1)

/-- Cost accumulator of the depth walk. -/
def walkCost (levels : List DepthLevel) (remaining : ℚ) : ℚ :=
  (vwapLoop levels remaining).1

/-- Fill accumulator of the depth walk. -/
def walkFill (levels : List DepthLevel) (remaining : ℚ) : ℚ :=
  (vwapLoop levels remaining).2.1

/-- Levels-used accumulator of the depth walk. -/
def walkLevels (levels : List DepthLevel) (remaining : ℚ) : ℕ :=
  (vwapLoop levels remaining).2.2

namespace OrderBook

/-- Best bid price (highest, bids are stored descending). -/
def best_bid (b : OrderBook) : Option ℚ :=
  b.bids.head?.map (fun l => l.price)

/-- Best ask price (lowest, asks are stored ascending). -/
def best_ask (b : OrderBook) : Option ℚ :=
  b.asks.head?.map (fun l => l.price)

/-- OrderBook.vwap_buy from market/data.rs: VWAP for buying, lifting
the asks in order.  None when the ask side is empty or the target
size is non-positive, or when nothing was filled. -/
def vwap_buy (b : OrderBook) (target_size : ℚ) : Option VwapResult :=
  if b.asks.isEmpty ∨ target_size ≤ 0 then none
  else if 0 < (vwapLoop b.asks target_size).2.1 then
    some ⟨(vwapLoop b.asks target_size).1 / (vwapLoop b.asks target_size).2.1,
      (vwapLoop b.asks target_size).2.1, (vwapLoop b.asks target_size).2.2⟩
  else none

/-- OrderBook.vwap_sell from market/data.rs: VWAP for selling, hitting
the bids in order. -/
def vwap_sell (b : OrderBook) (target_size : ℚ) : Option VwapResult :=
  if b.bids.isEmpty ∨ target_size ≤ 0 then none
  else if 0 < (vwapLoop b.bids target_size).2.1 then
    some ⟨(vwapLoop b.bids target_size).1 / (vwapLoop b.bids target_size).2.1,
      (vwapLoop b.bids target_size).2.1, (vwapLoop b.bids target_size).2.2⟩
  else none

/-- Total ask-side liquidity (total_ask_size in market/data.rs). -/
def total_ask_size (b : OrderBook) : ℚ :=
  (b.asks.map (fun l => l.size)).sum

/-- Total bid-side liquidity (total_bid_size in market/data.rs). -/
def total_bid_size (b : OrderBook) : ℚ :=
  (b.bids.map (fun l => l.size)).sum

/-- OrderBook.is_stale from market/data.rs: the wall clock is passed
explicitly; u64 saturating subtraction is Nat subtraction. -/
def is_stale (b : OrderBook) (max_age_ns now_ns : ℕ) : Bool :=
  now_ns - b.timestamp_ns > max_age_ns

end OrderBook

-- Basic unfolding lemmas for the depth walk.

theorem vwapLoop_nil (r : ℚ) : vwapLoop [] r = (0, 0, 0) := rfl

theorem vwapLoop_cons_nonpos (l : DepthLevel) (ls : List DepthLevel) {r : ℚ}
    (hr : r ≤ 0) : vwapLoop (l :: ls) r = (0, 0, 0) := by
  simp [vwapLoop, hr]

theorem vwapLoop_cons_pos (l : DepthLevel) (ls : List DepthLevel) {r : ℚ}
    (hr : 0 < r) :
    vwapLoop (l :: ls) r =
      (min r l.size * l.price + (vwapLoop ls (r - min r l.size)).1,
       min r l.size + (vwapLoop ls (r - min r l.size)).2.1,
       (vwapLoop ls (r - min r l.size)).2.2 + 1) := by
  simp [vwapLoop, not_le.mpr hr]

theorem walkFill_nonpos (levels : List DepthLevel) {r : ℚ} (hr : r ≤ 0) :
    walkFill levels r = 0 := by
  cases levels with
  | nil => rfl
  | cons l ls => simp [walkFill, vwapLoop_cons_nonpos l ls hr]

theorem walkCost_nonpos (levels : List DepthLevel) {r : ℚ} (hr : r ≤ 0) :
    walkCost levels r = 0 := by
  cases levels with
  | nil => rfl
  | cons l ls => simp [walkCost, vwapLoop_cons_nonpos l ls hr]

theorem walkFill_cons_pos (l : DepthLevel) (ls : List DepthLevel) {r : ℚ}
    (hr : 0 < r) :
    walkFill (l :: ls) r = min r l.size + walkFill ls (r - min r l.size) := by
  simp [walkFill, vwapLoop_cons_pos l ls hr]

theorem walkCost_cons_pos (l : DepthLevel) (ls : List DepthLevel) {r : ℚ}
    (hr : 0 < r) :
    walkCost (l :: ls) r =
      min r l.size * l.price + walkCost ls (r - min r l.size) := by
  simp [walkCost, vwapLoop_cons_pos l ls hr]

/-- With non-negative level sizes, the walk fills exactly
min(target, total size on the side). -/
theorem walkFill_eq_min (levels : List DepthLevel) (r : ℚ)
    (hsz : ∀ l ∈ levels, 0 ≤ l.size) (hr : 0 ≤ r) :
    walkFill levels r = min r ((levels.map (fun l => l.size)).sum) := by
  induction levels generalizing r with
  | nil => simp [walkFill, vwapLoop, min_eq_right hr]
  | cons l ls ih =>
    have hszl : 0 ≤ l.size := hsz l (List.mem_cons_self l ls)
    have hszs : ∀ x ∈ ls, 0 ≤ x.size := fun x hx => hsz x (List.mem_cons_of_mem l hx)
    have hsum : 0 ≤ (ls.map (fun x => x.size)).sum := by
      apply List.sum_nonneg
      intro q hq
      obtain ⟨x, hx, rfl⟩ := List.mem_map.mp hq
      exact hszs x hx
    rcases eq_or_lt_of_le hr with hr0 | hrpos
    · rw [walkFill_nonpos _ (le_of_eq hr0.symm)]
      have : min r (l.size + (ls.map (fun x => x.size)).sum) = 0 := by
        rw [← hr0]
        exact min_eq_left (by linarith)
      simp [this]
    · rw [walkFill_cons_pos l ls hrpos]
      have hfill : 0 ≤ r - min r l.size := by
        have : min r l.size ≤ r := min_le_left _ _
        linarith
      rw [ih _ hszs hfill]
      simp only [List.map_cons, List.sum_cons]
      rcases le_total r l.size with hcase | hcase
      · rw [min_eq_left hcase, sub_self, min_eq_left hsum, add_zero]
        exact (min_eq_left (by linarith)).symm
      · rw [min_eq_right hcase]
        rcases le_total (r - l.size) ((ls.map (fun x => x.size)).sum) with hc2 | hc2
        · rw [min_eq_left hc2, min_eq_left (by linarith)]
          ring
        · rw [min_eq_right hc2, min_eq_right (by linarith)]

/-- Every filled unit costs at least p when every level price is at
least p (sizes non-negative). -/
theorem walkCost_lower (levels : List DepthLevel) (r : ℚ) (p : ℚ)
    (hpr : ∀ l ∈ levels, p ≤ l.price) (hsz : ∀ l ∈ levels, 0 ≤ l.size) :
    p * walkFill levels r ≤ walkCost levels r := by
  induction levels generalizing r with
  | nil => simp [walkFill, walkCost, vwapLoop]
  | cons l ls ih =>
    rcases le_or_lt r 0 with hr | hr
    · rw [walkFill_nonpos _ hr, walkCost_nonpos _ hr]
      simp
    · rw [walkFill_cons_pos l ls hr, walkCost_cons_pos l ls hr]
      have hfill : 0 ≤ min r l.size :=
        le_min (le_of_lt hr) (hsz l (List.mem_cons_self l ls)) |>.trans_eq rfl
      have hpl : p ≤ l.price := hpr l (List.mem_cons_self l ls)
      have h1 : p * min r l.size ≤ min r l.size * l.price := by
        rw [mul_comm]
        exact mul_le_mul_of_nonneg_left hpl hfill
      have h2 := ih (r - min r l.size)
        (fun x hx => hpr x (List.mem_cons_of_mem l hx))
        (fun x hx => hsz x (List.mem_cons_of_mem l hx))
      nlinarith [h1, h2]

/-- Removing the consumed amount is monotone in the target. -/
theorem sub_min_mono {r1 r2 s : ℚ} (h : r1 ≤ r2) :
    r1 - min r1 s ≤ r2 - min r2 s := by
  rcases le_total r1 s with h1 | h1
  · rw [min_eq_left h1, sub_self]
    have hle : min r2 s ≤ r2 := min_le_left _ _
    linarith
  · rw [min_eq_right h1, min_eq_right (h1.trans h)]
    linarith

/-- Marginal-cost bound: the extra volume filled when the target grows
from r1 to r2 costs at least p per unit, when every level price is at
least p. -/
theorem walkMargin_lower (levels : List DepthLevel) (p : ℚ)
    (hpr : ∀ l ∈ levels, p ≤ l.price) (hsz : ∀ l ∈ levels, 0 ≤ l.size)
    {r1 r2 : ℚ} (h12 : r1 ≤ r2) :
    p * walkFill levels r2 + walkCost levels r1 ≤
      p * walkFill levels r1 + walkCost levels r2 := by
  induction levels generalizing r1 r2 with
  | nil => simp [walkFill, walkCost, vwapLoop]
  | cons l ls ih =>
    rcases le_or_lt r1 0 with h | h
    · rw [walkFill_nonpos _ h, walkCost_nonpos _ h]
      have hlow := walkCost_lower (l :: ls) r2 p hpr hsz
      linarith
    · have h2 : 0 < r2 := h.trans_le h12
      rw [walkFill_cons_pos l ls h, walkCost_cons_pos l ls h,
        walkFill_cons_pos l ls h2, walkCost_cons_pos l ls h2]
      have hpl : p ≤ l.price := hpr l (List.mem_cons_self l ls)
      have hf12 : min r1 l.size ≤ min r2 l.size := min_le_min h12 le_rfl
      have hih := ih (fun x hx => hpr x (List.mem_cons_of_mem l hx))
        (fun x hx => hsz x (List.mem_cons_of_mem l hx))
        (sub_min_mono h12 (s := l.size))
      have haux : 0 ≤ (l.price - p) * (min r2 l.size - min r1 l.size) :=
        mul_nonneg (by linarith) (by linarith)
      nlinarith [hih, haux]

/-- Cross-multiplied VWAP monotonicity for an ascending-price side:
growing the target can only raise the average fill price. -/
theorem walkCross_asc (levels : List DepthLevel)
    (hsort : levels.Pairwise (fun a c => a.price ≤ c.price))
    (hsz : ∀ l ∈ levels, 0 ≤ l.size)
    {r1 r2 : ℚ} (h12 : r1 ≤ r2) :
    walkCost levels r1 * walkFill levels r2 ≤
      walkCost levels r2 * walkFill levels r1 := by
  induction levels generalizing r1 r2 with
  | nil => simp [walkFill, walkCost, vwapLoop]
  | cons l ls ih =>
    obtain ⟨hhead, htail⟩ := List.pairwise_cons.mp hsort
    have hszl : 0 ≤ l.size := hsz l (List.mem_cons_self l ls)
    have hszs : ∀ x ∈ ls, 0 ≤ x.size := fun x hx => hsz x (List.mem_cons_of_mem l hx)
    rcases le_or_lt r1 0 with h | h
    · rw [walkFill_nonpos _ h, walkCost_nonpos _ h]
      simp
    · have h2 : 0 < r2 := h.trans_le h12
      rw [walkFill_cons_pos l ls h, walkCost_cons_pos l ls h,
        walkFill_cons_pos l ls h2, walkCost_cons_pos l ls h2]
      rcases le_total r1 l.size with hcase | hcase
      · rw [min_eq_left hcase, sub_self,
          walkFill_nonpos ls le_rfl, walkCost_nonpos ls le_rfl]
        have hq := walkCost_lower ls (r2 - min r2 l.size) l.price hhead hszs
        have hf2 : 0 ≤ min r2 l.size := le_min (le_of_lt h2) (hszl)
        have hr1 : 0 ≤ r1 := le_of_lt h
        nlinarith [mul_le_mul_of_nonneg_left hq hr1]
      · have hmin1 : min r1 l.size = l.size := min_eq_right hcase
        have hmin2 : min r2 l.size = l.size := min_eq_right (hcase.trans h12)
        rw [hmin1, hmin2]
        have hih := ih htail hszs (by linarith : r1 - l.size ≤ r2 - l.size)
        have hmargin := walkMargin_lower ls l.price hhead hszs
          (by linarith : r1 - l.size ≤ r2 - l.size)
        nlinarith [hih, mul_le_mul_of_nonneg_left hmargin hszl]

/-- Negating every price of a side. -/
def negPrices (levels : List DepthLevel) : List DepthLevel :=
  levels.map (fun l => ⟨-l.price, l.size⟩)

theorem walkFill_negPrices (levels : List DepthLevel) (r : ℚ) :
    walkFill (negPrices levels) r = walkFill levels r := by
  induction levels generalizing r with
  | nil => rfl
  | cons l ls ih =>
    rcases le_or_lt r 0 with h | h
    · rw [show negPrices (l :: ls) = ⟨-l.price, l.size⟩ :: negPrices ls from rfl,
        walkFill_nonpos _ h, walkFill_nonpos _ h]
    · rw [show negPrices (l :: ls) = ⟨-l.price, l.size⟩ :: negPrices ls from rfl,
        walkFill_cons_pos _ _ h, walkFill_cons_pos _ _ h]
      simp only
      rw [ih]

theorem walkCost_negPrices (levels : List DepthLevel) (r : ℚ) :
    walkCost (negPrices levels) r = -walkCost levels r := by
  induction levels generalizing r with
  | nil => simp [walkCost, vwapLoop, negPrices]
  | cons l ls ih =>
    rcases le_or_lt r 0 with h | h
    · rw [show negPrices (l :: ls) = ⟨-l.price, l.size⟩ :: negPrices ls from rfl,
        walkCost_nonpos _ h, walkCost_nonpos _ h, neg_zero]
    · rw [show negPrices (l :: ls) = ⟨-l.price, l.size⟩ :: negPrices ls from rfl,
        walkCost_cons_pos _ _ h, walkCost_cons_pos _ _ h]
      simp only
      rw [ih]
      ring

/-- Cross-multiplied VWAP monotonicity for a descending-price side:
growing the target can only lower the average fill price. -/
theorem walkCross_desc (levels : List DepthLevel)
    (hsort : levels.Pairwise (fun a c => c.price ≤ a.price))
    (hsz : ∀ l ∈ levels, 0 ≤ l.size)
    {r1 r2 : ℚ} (h12 : r1 ≤ r2) :
    walkCost levels r2 * walkFill levels r1 ≤
      walkCost levels r1 * walkFill levels r2 := by
  have hsort2 : (negPrices levels).Pairwise (fun a c => a.price ≤ c.price) := by
    unfold negPrices
    rw [List.pairwise_map]
    exact hsort.imp (fun h => by simpa using neg_le_neg h)
  have hsz2 : ∀ l ∈ negPrices levels, 0 ≤ l.size := by
    intro l hl
    obtain ⟨x, hx, rfl⟩ := List.mem_map.mp hl
    exact hsz x hx
  have hcross := walkCross_asc (negPrices levels) hsort2 hsz2 h12
  rw [walkCost_negPrices, walkCost_negPrices, walkFill_negPrices,
    walkFill_negPrices] at hcross
  linarith

/-- Unpack a successful vwap_buy into walk components. -/
theorem vwap_buy_some_iff (b : OrderBook) {s : ℚ} {r : VwapResult}
    (h : b.vwap_buy s = some r) :
    r.vwap = walkCost b.asks s / walkFill b.asks s ∧
      r.total_size = walkFill b.asks s ∧
      0 < walkFill b.asks s ∧ 0 < s := by
  unfold OrderBook.vwap_buy at h
  split_ifs at h with h1 h2
  · obtain h3 := Option.some.inj h
    subst h3
    push_neg at h1
    exact ⟨rfl, rfl, h2, h1.2⟩

/-- Unpack a successful vwap_sell into walk components. -/
theorem vwap_sell_some_iff (b : OrderBook) {s : ℚ} {r : VwapResult}
    (h : b.vwap_sell s = some r) :
    r.vwap = walkCost b.bids s / walkFill b.bids s ∧
      r.total_size = walkFill b.bids s ∧
      0 < walkFill b.bids s ∧ 0 < s := by
  unfold OrderBook.vwap_sell at h
  split_ifs at h with h1 h2
  · obtain h3 := Option.some.inj h
    subst h3
    push_neg at h1
    exact ⟨rfl, rfl, h2, h1.2⟩

/-- A sample order book used to instantiate the vwap theorems
(the two-level scenario from the test suite, prices 0.45/0.46 and
bids 0.48/0.46). -/
def sampleBook : OrderBook :=
  ⟨"tokenA",
   [⟨12/25, 100⟩, ⟨23/50, 100⟩],
   [⟨9/20, 50⟩, ⟨23/50, 50⟩],
   0⟩

/-- C2: for every order book whose ask levels all have size greater
than 0, and every target size s greater than 0 with the ask side
non-empty, vwap_buy returns a result whose total fillable size equals
min(s, sum of the sizes of all ask levels). -/
theorem claim_C2_vwap_buy_fillable_cap (b : OrderBook)
    (hsz : ∀ l ∈ b.asks, 0 < l.size) {s : ℚ} (hs : 0 < s)
    (hne : b.asks ≠ []) :
    ∃ r, b.vwap_buy s = some r ∧ r.total_size = min s b.total_ask_size := by
  have hsz0 : ∀ l ∈ b.asks, 0 ≤ l.size := fun l hl => (hsz l hl).le
  have hfill : walkFill b.asks s = min s b.total_ask_size :=
    walkFill_eq_min b.asks s hsz0 hs.le
  have htot : 0 < b.total_ask_size := by
    cases hA : b.asks with
    | nil => exact absurd hA hne
    | cons l ls =>
      have hl : 0 < l.size := hsz l (by rw [hA]; exact List.mem_cons_self l ls)
      have hrest : 0 ≤ (ls.map (fun x => x.size)).sum := by
        apply List.sum_nonneg
        intro q hq
        obtain ⟨x, hx, rfl⟩ := List.mem_map.mp hq
        exact hsz0 x (by rw [hA]; exact List.mem_cons_of_mem l hx)
      unfold OrderBook.total_ask_size
      rw [hA]
      simp only [List.map_cons, List.sum_cons]
      linarith
  have hfillpos : 0 < walkFill b.asks s := by
    rw [hfill]
    exact lt_min hs htot
  have hc1 : ¬(b.asks.isEmpty = true ∨ s ≤ 0) := by
    push_neg
    constructor
    · simpa [List.isEmpty_iff] using hne
    · exact hs
  refine ⟨⟨walkCost b.asks s / walkFill b.asks s, walkFill b.asks s,
    walkLevels b.asks s⟩, ?_, hfill⟩
  unfold OrderBook.vwap_buy
  rw [if_neg hc1, if_pos (show 0 < (vwapLoop b.asks s).2.1 from hfillpos)]
  rfl

/-- Witness for C2 at the concrete two-level book: buying 100 across
asks of 50 plus 50 fills exactly 100. -/
theorem claim_C2_witness :
    ((∀ l ∈ sampleBook.asks, 0 < l.size) ∧ (0 : ℚ) < 100 ∧
      sampleBook.asks ≠ []) ∧
    ∃ r, sampleBook.vwap_buy 100 = some r ∧
      r.total_size = min 100 sampleBook.total_ask_size :=
  ⟨⟨by norm_num [sampleBook], by norm_num, by simp [sampleBook]⟩,
   claim_C2_vwap_buy_fillable_cap sampleBook (by norm_num [sampleBook])
     (by norm_num) (by simp [sampleBook])⟩

/-- C3: for every order book whose asks are sorted non-decreasing in
price (resp. bids non-increasing) with all level sizes positive, and
target sizes 0 < s1 ≤ s2, the vwap returned by vwap_buy is
non-decreasing in the target and the vwap returned by vwap_sell is
non-increasing in the target. -/
theorem claim_C3_vwap_monotone (b : OrderBook) (s1 s2 : ℚ)
    (hs1 : 0 < s1) (h12 : s1 ≤ s2) :
    (∀ r1 r2, b.asks.Pairwise (fun a c => a.price ≤ c.price) →
      (∀ l ∈ b.asks, 0 < l.size) →
      b.vwap_buy s1 = some r1 → b.vwap_buy s2 = some r2 →
      r1.vwap ≤ r2.vwap) ∧
    (∀ r1 r2, b.bids.Pairwise (fun a c => c.price ≤ a.price) →
      (∀ l ∈ b.bids, 0 < l.size) →
      b.vwap_sell s1 = some r1 → b.vwap_sell s2 = some r2 →
      r2.vwap ≤ r1.vwap) := by
  have hs1le := hs1.le
  constructor
  · intro r1 r2 hsort hsz h1 h2
    obtain ⟨hv1, ht1, hf1, _⟩ := vwap_buy_some_iff b h1
    obtain ⟨hv2, ht2, hf2, _⟩ := vwap_buy_some_iff b h2
    rw [hv1, hv2, div_le_div_iff₀ hf1 hf2]
    exact walkCross_asc b.asks hsort (fun l hl => (hsz l hl).le) h12
  · intro r1 r2 hsort hsz h1 h2
    obtain ⟨hv1, ht1, hf1, _⟩ := vwap_sell_some_iff b h1
    obtain ⟨hv2, ht2, hf2, _⟩ := vwap_sell_some_iff b h2
    rw [hv1, hv2, div_le_div_iff₀ hf2 hf1]
    exact walkCross_desc b.bids hsort (fun l hl => (hsz l hl).le) h12

/-- Witness for C3 at the concrete two-level book, targets 50 and 150:
the buy vwap rises from 0.45 to 0.455 and the sell vwap falls from
0.48 to 71/150. -/
theorem claim_C3_witness :
    ((0 : ℚ) < 50 ∧ (50 : ℚ) ≤ 150) ∧
    (VwapResult.mk (9/20) 50 1).vwap ≤ (VwapResult.mk (91/200) 100 2).vwap ∧
    (VwapResult.mk (71/150) 150 2).vwap ≤ (VwapResult.mk (12/25) 50 1).vwap := by
  have hb1 : sampleBook.vwap_buy 50 = some ⟨9/20, 50, 1⟩ := by
    norm_num [sampleBook, OrderBook.vwap_buy, vwapLoop, min_def]
  have hb2 : sampleBook.vwap_buy 150 = some ⟨91/200, 100, 2⟩ := by
    norm_num [sampleBook, OrderBook.vwap_buy, vwapLoop, min_def]
  have hs1 : sampleBook.vwap_sell 50 = some ⟨12/25, 50, 1⟩ := by
    norm_num [sampleBook, OrderBook.vwap_sell, vwapLoop, min_def]
  have hs2 : sampleBook.vwap_sell 150 = some ⟨71/150, 150, 2⟩ := by
    norm_num [sampleBook, OrderBook.vwap_sell, vwapLoop, min_def]
  refine ⟨⟨by norm_num, by norm_num⟩, ?_, ?_⟩
  · exact (claim_C3_vwap_monotone sampleBook 50 150 (by norm_num) (by norm_num)).1
      _ _ (by norm_num [sampleBook, List.pairwise_cons])
      (by norm_num [sampleBook]) hb1 hb2
  · exact (claim_C3_vwap_monotone sampleBook 50 150 (by norm_num) (by norm_num)).2
      _ _ (by norm_num [sampleBook, List.pairwise_cons])
      (by norm_num [sampleBook]) hs1 hs2

/-! ### Sum-to-100 deviation analyzer (engine analysis/sum_deviation.rs) -/

/-- SumTo100Config from engine config.rs. -/
structure SumTo100Config where
  enabled : Bool
  min_edge : ℚ
  max_position : ℚ
  max_notional : ℚ
  min_liquidity : ℚ
  fee_rate : ℚ
  paper_trading : Bool
  max_book_age_ms : ℕ
deriving DecidableEq, Repr

/-- MarketPair from market/data.rs. -/
structure MarketPair where
  market_id : String
  yes_token : String
  no_token : String
  question : String
deriving DecidableEq, Repr

/-- SumDeviationOpportunity from sum_deviation.rs. -/
structure SumDeviationOpportunity where
  market_id : String
  yes_token : String
  no_token : String
  yes_vwap : VwapResult
  no_vwap : VwapResult
  sum : ℚ
  edge : ℚ
  recommended_size : ℚ
  confidence : ℚ
deriving DecidableEq, Repr

/-- PriceLevel from market/data.rs: the top-of-book summary. -/
structure PriceLevel where
  bid : ℚ
  ask : ℚ
  mid : ℚ
  spread : ℚ
  timestamp_ns : ℕ
deriving DecidableEq, Repr

/-- The market store as the strategies read it: the registered pairs
(get_all_pairs), the per-token order books, the per-token top-of-book
prices, and the wall clock at the moment of the scan (wall-clock reads
are explicit in the embedding). -/
structure MarketView where
  pairs : List (String × MarketPair)
  books : List (String × OrderBook)
  prices : List (String × PriceLevel)
  now_ns : ℕ

/-- MarketData.get_order_book: look the token up in the book map. -/
def MarketView.get_order_book (v : MarketView) (token : String) : Option OrderBook :=
  (v.books.find? (fun p => p.1 == token)).map Prod.snd

/-- MarketData.get_ask: the ask of the top-of-book price entry. -/
def MarketView.get_ask (v : MarketView) (token : String) : Option ℚ :=
  ((v.prices.find? (fun p => p.1 == token)).map Prod.snd).map PriceLevel.ask

/-- SumDeviationAnalyzer.analyze_pair from sum_deviation.rs, with the
early returns of the source expressed as Option.bind and if-guards. -/
def analyze_pair (cfg : SumTo100Config) (market_id : String) (pair : MarketPair)
    (view : MarketView) : Option SumDeviationOpportunity :=
  (view.get_order_book pair.yes_token).bind fun yes_book =>
  (view.get_order_book pair.no_token).bind fun no_book =>
  if yes_book.is_stale (cfg.max_book_age_ms * 1000000) view.now_ns ∨
      no_book.is_stale (cfg.max_book_age_ms * 1000000) view.now_ns then none
  else
    (yes_book.vwap_buy cfg.max_position).bind fun yes_vwap =>
    (no_book.vwap_buy cfg.max_position).bind fun no_vwap =>
    if yes_vwap.total_size < cfg.min_liquidity ∨
        no_vwap.total_size < cfg.min_liquidity then none
    else if 1 - (yes_vwap.vwap + no_vwap.vwap) - cfg.fee_rate < cfg.min_edge then
      none
    else
      some ⟨market_id, pair.yes_token, pair.no_token, yes_vwap, no_vwap,
        yes_vwap.vwap + no_vwap.vwap,
        1 - (yes_vwap.vwap + no_vwap.vwap) - cfg.fee_rate,
        min (min (min yes_vwap.total_size no_vwap.total_size) cfg.max_position)
          (cfg.max_notional / (yes_vwap.vwap + no_vwap.vwap)),
        min (min (min yes_vwap.total_size no_vwap.total_size / cfg.max_position) 2 / 2) 1⟩

/-- SumDeviationAnalyzer.analyze from sum_deviation.rs: analyze every
registered pair and sort the opportunities by edge descending. -/
def analyze (cfg : SumTo100Config) (view : MarketView) : List SumDeviationOpportunity :=
  (view.pairs.filterMap (fun p => analyze_pair cfg p.1 p.2 view)).mergeSort
    (fun a b => decide (b.edge ≤ a.edge))

/-- C1: for every registered pair whose books are present and not
stale and whose buy-VWAPs at max_position exist with fillable size at
least min_liquidity, analyze_pair emits an opportunity exactly when
edge = 1 - (yes_vwap + no_vwap) - fee_rate is at least min_edge; the
emitted record carries that edge and recommended_size =
min(min(yes_fillable, no_fillable), max_position, max_notional/sum);
and analyze returns a list sorted by edge descending. -/
theorem claim_C1_sum_deviation (cfg : SumTo100Config) (view : MarketView)
    (market_id : String) (pair : MarketPair)
    (yes_book no_book : OrderBook) (yes_vwap no_vwap : VwapResult)
    (hyb : view.get_order_book pair.yes_token = some yes_book)
    (hnb : view.get_order_book pair.no_token = some no_book)
    (hys : yes_book.is_stale (cfg.max_book_age_ms * 1000000) view.now_ns = false)
    (hns : no_book.is_stale (cfg.max_book_age_ms * 1000000) view.now_ns = false)
    (hyv : yes_book.vwap_buy cfg.max_position = some yes_vwap)
    (hnv : no_book.vwap_buy cfg.max_position = some no_vwap)
    (hyl : cfg.min_liquidity ≤ yes_vwap.total_size)
    (hnl : cfg.min_liquidity ≤ no_vwap.total_size) :
    ((analyze_pair cfg market_id pair view).isSome ↔
      cfg.min_edge ≤ 1 - (yes_vwap.vwap + no_vwap.vwap) - cfg.fee_rate) ∧
    (∀ opp, analyze_pair cfg market_id pair view = some opp →
      opp.edge = 1 - (yes_vwap.vwap + no_vwap.vwap) - cfg.fee_rate ∧
      opp.recommended_size =
        min (min yes_vwap.total_size no_vwap.total_size)
          (min cfg.max_position
            (cfg.max_notional / (yes_vwap.vwap + no_vwap.vwap)))) ∧
    (analyze cfg view).Sorted (fun a b => b.edge ≤ a.edge) := by
  have hliq : ¬(yes_vwap.total_size < cfg.min_liquidity ∨
      no_vwap.total_size < cfg.min_liquidity) := by
    push_neg
    exact ⟨hyl, hnl⟩
  have hred : analyze_pair cfg market_id pair view =
      if 1 - (yes_vwap.vwap + no_vwap.vwap) - cfg.fee_rate < cfg.min_edge then
        none
      else
        some ⟨market_id, pair.yes_token, pair.no_token, yes_vwap, no_vwap,
          yes_vwap.vwap + no_vwap.vwap,
          1 - (yes_vwap.vwap + no_vwap.vwap) - cfg.fee_rate,
          min (min (min yes_vwap.total_size no_vwap.total_size) cfg.max_position)
            (cfg.max_notional / (yes_vwap.vwap + no_vwap.vwap)),
          min (min (min yes_vwap.total_size no_vwap.total_size / cfg.max_position) 2 / 2)
            1⟩ := by
    unfold analyze_pair
    rw [hyb, hnb]
    simp only [Option.some_bind, hys, hns]
    rw [if_neg (by simp)]
    rw [hyv, hnv]
    simp only [Option.some_bind]
    rw [if_neg hliq]
  refine ⟨?_, ?_, ?_⟩
  · rw [hred]
    rcases lt_or_le (1 - (yes_vwap.vwap + no_vwap.vwap) - cfg.fee_rate) cfg.min_edge
      with hcase | hcase
    · rw [if_pos hcase]
      simp [not_le.mpr hcase]
    · rw [if_neg (not_lt.mpr hcase)]
      simp [hcase]
  · intro opp hopp
    rw [hred] at hopp
    split_ifs at hopp
    obtain h3 := Option.some.inj hopp
    subst h3
    exact ⟨rfl, min_assoc _ _ _⟩
  · unfold analyze
    have htrans : ∀ a b c : SumDeviationOpportunity,
        (fun a b : SumDeviationOpportunity => decide (b.edge ≤ a.edge)) a b = true →
        (fun a b : SumDeviationOpportunity => decide (b.edge ≤ a.edge)) b c = true →
        (fun a b : SumDeviationOpportunity => decide (b.edge ≤ a.edge)) a c = true := by
      intro a b c hab hbc
      simp only [decide_eq_true_iff] at hab hbc ⊢
      exact hbc.trans hab
    have htotal : ∀ a b : SumDeviationOpportunity,
        ((fun a b : SumDeviationOpportunity => decide (b.edge ≤ a.edge)) a b ||
         (fun a b : SumDeviationOpportunity => decide (b.edge ≤ a.edge)) b a) = true := by
      intro a b
      simpa using le_total b.edge a.edge
    have hs := List.sorted_mergeSort htrans htotal
      (view.pairs.filterMap (fun p => analyze_pair cfg p.1 p.2 view))
    exact hs.imp (fun h => of_decide_eq_true h)

/-- The analyzer configuration used by the engine test suite. -/
def testCfg : SumTo100Config :=
  ⟨true, 3/1000, 100, 100, 10, 1/100, true, 60000⟩

/-- The market pair of the test scenario. -/
def testPair : MarketPair := ⟨"m1", "yt", "nt", "q"⟩

/-- YES book of the profitable scenario: ask 0.45, bid 0.44. -/
def testYesBook : OrderBook := ⟨"yt", [⟨11/25, 100⟩], [⟨9/20, 100⟩], 0⟩

/-- NO book of the profitable scenario: ask 0.50, bid 0.49. -/
def testNoBook : OrderBook := ⟨"nt", [⟨49/100, 100⟩], [⟨1/2, 100⟩], 0⟩

/-- Market view of the profitable scenario. -/
def testView : MarketView :=
  ⟨[("m1", testPair)], [("yt", testYesBook), ("nt", testNoBook)], [], 0⟩

/-- Witness for C1 at the profitable test scenario: sum 0.95,
edge 0.04 at least min_edge 0.003, so an opportunity is emitted. -/
theorem claim_C1_witness :
    (testView.get_order_book testPair.yes_token = some testYesBook ∧
     testView.get_order_book testPair.no_token = some testNoBook ∧
     testYesBook.is_stale (testCfg.max_book_age_ms * 1000000) testView.now_ns = false ∧
     testNoBook.is_stale (testCfg.max_book_age_ms * 1000000) testView.now_ns = false ∧
     testYesBook.vwap_buy testCfg.max_position = some ⟨9/20, 100, 1⟩ ∧
     testNoBook.vwap_buy testCfg.max_position = some ⟨1/2, 100, 1⟩ ∧
     testCfg.min_liquidity ≤ (VwapResult.mk (9/20) 100 1).total_size ∧
     testCfg.min_liquidity ≤ (VwapResult.mk (1/2) 100 1).total_size) ∧
    ((analyze_pair testCfg "m1" testPair testView).isSome ↔
      testCfg.min_edge ≤
        1 - ((VwapResult.mk (9/20) 100 1).vwap + (VwapResult.mk (1/2) 100 1).vwap) -
          testCfg.fee_rate) ∧
    (analyze testCfg testView).Sorted (fun a b => b.edge ≤ a.edge) := by
  have hyb : testView.get_order_book testPair.yes_token = some testYesBook := rfl
  have hnb : testView.get_order_book testPair.no_token = some testNoBook := rfl
  have hys : testYesBook.is_stale (testCfg.max_book_age_ms * 1000000) testView.now_ns
      = false := by
    norm_num [testYesBook, testView, testCfg, OrderBook.is_stale]
  have hns : testNoBook.is_stale (testCfg.max_book_age_ms * 1000000) testView.now_ns
      = false := by
    norm_num [testNoBook, testView, testCfg, OrderBook.is_stale]
  have hyv : testYesBook.vwap_buy testCfg.max_position = some ⟨9/20, 100, 1⟩ := by
    norm_num [testYesBook, testCfg, OrderBook.vwap_buy, vwapLoop, min_def]
  have hnv : testNoBook.vwap_buy testCfg.max_position = some ⟨1/2, 100, 1⟩ := by
    norm_num [testNoBook, testCfg, OrderBook.vwap_buy, vwapLoop, min_def]
  have hyl : testCfg.min_liquidity ≤ (VwapResult.mk (9/20) 100 1).total_size := by
    norm_num [testCfg]
  have hnl : testCfg.min_liquidity ≤ (VwapResult.mk (1/2) 100 1).total_size := by
    norm_num [testCfg]
  obtain ⟨h1, h2, h3⟩ := claim_C1_sum_deviation testCfg testView "m1" testPair
    testYesBook testNoBook ⟨9/20, 100, 1⟩ ⟨1/2, 100, 1⟩
    hyb hnb hys hns hyv hnv hyl hnl
  exact ⟨⟨hyb, hnb, hys, hns, hyv, hnv, hyl, hnl⟩, h1, h3⟩

/-! ### Risk manager (engine risk/manager.rs) -/

/-- RiskConfig from engine config.rs. -/
structure RiskConfig where
  max_position : ℚ
  max_notional : ℚ
  max_daily_loss : ℚ
deriving DecidableEq, Repr

/-- Position from risk/manager.rs. -/
structure Position where
  size : ℚ
  avg_cost : ℚ
  realized_pnl : ℚ
deriving DecidableEq, Repr

/-- Modelled from the spec: TradeSignal lives in strategy/traits.rs,
which is absent from the sources.  Its three variants and their fields
follow the TradeIntent description of the spec and the pattern matches
in risk/manager.rs and strategy/engine.rs. -/
inductive TradeSignal where
  | buy (token_id : String) (price size : ℚ) (reason : String)
  | sell (token_id : String) (price size : ℚ) (reason : String)
  | arbitrage (yes_token no_token : String)
      (yes_price no_price profit_per_share size : ℚ)
deriving DecidableEq, Repr

/-- Modelled from the spec: the notional of an intent is price times
size for a single leg and (yes_price + no_price) times size for an
arbitrage. -/
def TradeSignal.notional : TradeSignal → ℚ
  | .buy _ price size _ => price * size
  | .sell _ price size _ => price * size
  | .arbitrage _ _ yes_price no_price _ size => (yes_price + no_price) * size

/-- The size field common to all three signal variants. -/
def TradeSignal.size : TradeSignal → ℚ
  | .buy _ _ size _ => size
  | .sell _ _ size _ => size
  | .arbitrage _ _ _ _ _ size => size

/-- True on the non-arbitrage Buy and Sell variants. -/
def TradeSignal.isBuyOrSell : TradeSignal → Bool
  | .buy .. => true
  | .sell .. => true
  | .arbitrage .. => false

/-- The state held by RiskManager: the position ledger, the daily
counters, the atomic microdollar P&L counter (i64, modelled as an
unbounded Int) and the emergency-stop flag. -/
structure RiskState where
  positions : List (String × Position)
  daily_trades : ℕ
  daily_volume : ℚ
  daily_pnl_micro : ℤ
  emergency_stop : Bool
deriving DecidableEq, Repr

/-- HashMap::get on the position ledger. -/
def findPos (l : List (String × Position)) (tok : String) : Option Position :=
  (l.find? (fun p => p.1 == tok)).map Prod.snd

/-- Insert-or-replace on the position ledger (entry / get_mut). -/
def setPos (l : List (String × Position)) (tok : String) (pos : Position) :
    List (String × Position) :=
  match l with
  | [] => [(tok, pos)]
  | (k, v) :: rest =>
    if k == tok then (k, pos) :: rest else (k, v) :: setPos rest tok pos

/-- RiskManager::get_position. -/
def RiskState.getPosition (s : RiskState) (tok : String) : Option Position :=
  findPos s.positions tok

/-- positions.get(token).map(p.size).unwrap_or(0.0) from check_signal. -/
def posSize (s : RiskState) (tok : String) : ℚ :=
  ((s.getPosition tok).map Position.size).getD 0

/-- Rust f64-to-i64 conversion truncates toward zero. -/
def truncToInt (q : ℚ) : ℤ :=
  if q < 0 then -Int.floor (-q) else Int.floor q

/-- RiskManager::check_signal from risk/manager.rs: emergency stop,
then the lock-free daily-loss check on the microdollar counter, then
the notional limit, then the per-kind position check. -/
def check_signal (cfg : RiskConfig) (s : RiskState) (sig : TradeSignal) : Bool :=
  if s.emergency_stop then false
  else if (s.daily_pnl_micro : ℚ) / 1000000 < -cfg.max_daily_loss then false
  else if sig.notional > cfg.max_notional then false
  else
    match sig with
    | .buy token_id _ size _ =>
      if posSize s token_id + size > cfg.max_position then false else true
    | .sell token_id _ size _ =>
      if posSize s token_id < size then false else true
    | .arbitrage _ _ _ _ _ size =>
      if size > cfg.max_position then false else true

/-- RiskManager::record_trade from risk/manager.rs. -/
def record_trade (s : RiskState) (sig : TradeSignal) : RiskState :=
  match sig with
  | .buy token_id price size _ =>
    match findPos s.positions token_id with
    | none =>
      { s with
        daily_trades := s.daily_trades + 1,
        daily_volume := s.daily_volume + sig.notional,
        positions := setPos s.positions token_id
          ⟨size, if size > 0 then price * size / size else 0, 0⟩ }
    | some old =>
      { s with
        daily_trades := s.daily_trades + 1,
        daily_volume := s.daily_volume + sig.notional,
        positions := setPos s.positions token_id
          ⟨old.size + size,
           if old.size + size > 0 then
             (old.avg_cost * old.size + price * size) / (old.size + size)
           else old.avg_cost,
           old.realized_pnl⟩ }
  | .sell token_id price size _ =>
    match findPos s.positions token_id with
    | none =>
      { s with
        daily_trades := s.daily_trades + 1,
        daily_volume := s.daily_volume + sig.notional }
    | some old =>
      { s with
        daily_trades := s.daily_trades + 1,
        daily_volume := s.daily_volume + sig.notional,
        positions := setPos s.positions token_id
          ⟨old.size - size, old.avg_cost,
           old.realized_pnl + (price - old.avg_cost) * size⟩,
        daily_pnl_micro := s.daily_pnl_micro +
          truncToInt ((price - old.avg_cost) * size * 1000000) }
  | .arbitrage yes_token no_token yes_price no_price profit_per_share size =>
    { s with
      daily_trades := s.daily_trades + 1,
      daily_volume := s.daily_volume + sig.notional,
      positions :=
        (fun l1 =>
          setPos l1 no_token
            ⟨(((findPos l1 no_token).map Position.size).getD 0) + size, no_price,
             ((findPos l1 no_token).map Position.realized_pnl).getD 0⟩)
          (setPos s.positions yes_token
            ⟨(((findPos s.positions yes_token).map Position.size).getD 0) + size,
             yes_price,
             ((findPos s.positions yes_token).map Position.realized_pnl).getD 0⟩),
      daily_pnl_micro := s.daily_pnl_micro +
        truncToInt (profit_per_share * size * 1000000) }

/-- RiskManager::reset_daily from risk/manager.rs. -/
def reset_daily (s : RiskState) : RiskState :=
  { s with daily_trades := 0, daily_volume := 0, daily_pnl_micro := 0 }

/-- Fold a list of recorded trades over a state. -/
def recordAll (s : RiskState) (sigs : List TradeSignal) : RiskState :=
  sigs.foldl record_trade s

/-- The daily P&L counter never rises along this list of recorded
trades (each realized contribution is non-positive). -/
def NonRaising (s : RiskState) : List TradeSignal → Prop
  | [] => True
  | sig :: rest =>
    (record_trade s sig).daily_pnl_micro ≤ s.daily_pnl_micro ∧
      NonRaising (record_trade s sig) rest

/-- Every signal in the list passes the admission gate at its
pre-state and is then recorded. -/
def Gated (cfg : RiskConfig) (s : RiskState) : List TradeSignal → Prop
  | [] => True
  | sig :: rest =>
    check_signal cfg s sig = true ∧ Gated cfg (record_trade s sig) rest

/-- All ledger entries have non-negative size. -/
def PosNonneg (s : RiskState) : Prop :=
  ∀ tok p, s.getPosition tok = some p → 0 ≤ p.size

theorem findPos_setPos_self (l : List (String × Position)) (tok : String)
    (pos : Position) : findPos (setPos l tok pos) tok = some pos := by
  induction l with
  | nil => simp [setPos, findPos, List.find?]
  | cons kv rest ih =>
    obtain ⟨k, v⟩ := kv
    by_cases h : k = tok
    · subst h
      simp [setPos, findPos, List.find?]
    · have hbeq : (k == tok) = false := beq_eq_false_iff_ne.mpr h
      simp [setPos, findPos, List.find?, hbeq] at ih ⊢
      exact ih

theorem findPos_setPos_other (l : List (String × Position)) (tok tok2 : String)
    (pos : Position) (h : tok2 ≠ tok) :
    findPos (setPos l tok pos) tok2 = findPos l tok2 := by
  have hbeq0 : (tok == tok2) = false := beq_eq_false_iff_ne.mpr (Ne.symm h)
  induction l with
  | nil => simp [setPos, findPos, List.find?, hbeq0]
  | cons kv rest ih =>
    obtain ⟨k, v⟩ := kv
    by_cases hk : k = tok
    · subst hk
      simp [setPos, findPos, List.find?, hbeq0]
    · have hbeq : (k == tok) = false := beq_eq_false_iff_ne.mpr hk
      by_cases hk2 : k = tok2
      · subst hk2
        simp [setPos, findPos, List.find?, hbeq]
      · have hbeq2 : (k == tok2) = false := beq_eq_false_iff_ne.mpr hk2
        simp [setPos, findPos, List.find?, hbeq, hbeq2] at ih ⊢
        exact ih

/-- The daily-loss gate: a state whose microdollar counter reads below
the loss limit rejects every signal. -/
theorem check_signal_below (cfg : RiskConfig) (s : RiskState) (sig : TradeSignal)
    (hbelow : (s.daily_pnl_micro : ℚ) / 1000000 < -cfg.max_daily_loss) :
    check_signal cfg s sig = false := by
  unfold check_signal
  cases h : s.emergency_stop
  · rw [if_neg (by simp [h]), if_pos hbelow]
  · rw [if_pos (by simp [h])]

/-- Recording only non-raising trades keeps the counter below the
loss limit. -/
theorem below_recordAll (cfg : RiskConfig) :
    ∀ (sigs : List TradeSignal) (s : RiskState),
      (s.daily_pnl_micro : ℚ) / 1000000 < -cfg.max_daily_loss →
      NonRaising s sigs →
      ((recordAll s sigs).daily_pnl_micro : ℚ) / 1000000 < -cfg.max_daily_loss := by
  intro sigs
  induction sigs with
  | nil =>
    intro s h _
    simpa [recordAll] using h
  | cons sig rest ih =>
    intro s h hnr
    obtain ⟨h1, h2⟩ := hnr
    have hle : ((record_trade s sig).daily_pnl_micro : ℚ) ≤
        (s.daily_pnl_micro : ℚ) := by
      exact_mod_cast h1
    have hlt : ((record_trade s sig).daily_pnl_micro : ℚ) / 1000000 <
        -cfg.max_daily_loss := by
      have hdiv : ((record_trade s sig).daily_pnl_micro : ℚ) / 1000000 ≤
          (s.daily_pnl_micro : ℚ) / 1000000 := by
        apply div_le_div_of_nonneg_right hle
        norm_num
      linarith
    simpa [recordAll] using ih (record_trade s sig) hlt h2

/-- C4: once the daily P&L, read from the microdollar counter divided
by 1,000,000, is below -max_daily_loss, check_signal rejects every
non-arbitrage Buy and Sell signal; the rejection persists across any
sequence of recorded trades none of which raises the counter, and
reset_daily zeroes the counter (the only other escape being a trade
that raises the P&L above the threshold). -/
theorem claim_C4_daily_loss_gate (cfg : RiskConfig) (s : RiskState)
    (hbelow : (s.daily_pnl_micro : ℚ) / 1000000 < -cfg.max_daily_loss) :
    (∀ sig, sig.isBuyOrSell = true → check_signal cfg s sig = false) ∧
    (∀ sigs sig, NonRaising s sigs → sig.isBuyOrSell = true →
      check_signal cfg (recordAll s sigs) sig = false) ∧
    (reset_daily s).daily_pnl_micro = 0 ∧
    (∀ s2 : RiskState, ¬((s2.daily_pnl_micro : ℚ) / 1000000 < -cfg.max_daily_loss) →
      s2.emergency_stop = false →
      ∀ tok price size reason,
        ¬((TradeSignal.buy tok price size reason).notional > cfg.max_notional) →
        ¬(posSize s2 tok + size > cfg.max_position) →
        check_signal cfg s2 (.buy tok price size reason) = true) := by
  refine ⟨fun sig _ => check_signal_below cfg s sig hbelow,
    fun sigs sig hnr _ =>
      check_signal_below cfg _ sig (below_recordAll cfg sigs s hbelow hnr),
    rfl, ?_⟩
  intro s2 hnb he tok price size reason hnot hpos
  simp only [check_signal]
  split_ifs with h1 h2 h3 h4
  all_goals first
    | rfl
    | exact absurd h1 (by simp [he])
    | exact absurd h2 hnb
    | exact absurd h3 hnot
    | exact absurd h4 hpos

/-- A state $600 in the red against a $500 daily-loss limit. -/
def c4state : RiskState := ⟨[], 0, 0, -600000000, false⟩

/-- The engine risk configuration of the test suite. -/
def c4cfg : RiskConfig := ⟨100, 1000, 500⟩

/-- Witness for C4: with the counter at -600 dollars, a Buy is
rejected now and a Sell is still rejected after recording a Buy
(which never raises the counter). -/
theorem claim_C4_witness :
    ((c4state.daily_pnl_micro : ℚ) / 1000000 < -c4cfg.max_daily_loss) ∧
    check_signal c4cfg c4state (.buy "t" (1/2) 5 "r") = false ∧
    check_signal c4cfg (recordAll c4state [.buy "t" (1/2) 10 "r"])
      (.sell "t" (1/2) 5 "r") = false ∧
    (reset_daily c4state).daily_pnl_micro = 0 ∧
    check_signal c4cfg (reset_daily c4state) (.buy "t" (1/2) 5 "r") = true := by
  have hbelow : (c4state.daily_pnl_micro : ℚ) / 1000000 < -c4cfg.max_daily_loss := by
    norm_num [c4state, c4cfg]
  obtain ⟨h1, h2, h3, h4⟩ := claim_C4_daily_loss_gate c4cfg c4state hbelow
  refine ⟨hbelow, h1 _ rfl, h2 [.buy "t" (1/2) 10 "r"] _ ⟨?_, trivial⟩ rfl, h3, ?_⟩
  · simp [record_trade, findPos, c4state, List.find?]
  · refine h4 (reset_daily c4state) ?_ rfl "t" (1/2) 5 "r" ?_ ?_
    · norm_num [reset_daily, c4state, c4cfg]
    · norm_num [TradeSignal.notional, c4cfg]
    · norm_num [posSize, RiskState.getPosition, findPos, reset_daily, c4state,
        c4cfg, List.find?]

/-- All entries of a raw ledger have non-negative size. -/
def LedgerNonneg (l : List (String × Position)) : Prop :=
  ∀ tok p, findPos l tok = some p → 0 ≤ p.size

theorem posNonneg_iff_ledger (s : RiskState) :
    PosNonneg s ↔ LedgerNonneg s.positions := Iff.rfl

theorem setPos_nonneg {l : List (String × Position)} {tok : String}
    {pos : Position} (hl : LedgerNonneg l) (hp : 0 ≤ pos.size) :
    LedgerNonneg (setPos l tok pos) := by
  intro t q hq
  by_cases ht : t = tok
  · subst ht
    rw [findPos_setPos_self] at hq
    cases Option.some.inj hq
    exact hp
  · rw [findPos_setPos_other _ _ _ _ ht] at hq
    exact hl t q hq

theorem getD_size_nonneg {l : List (String × Position)} (hl : LedgerNonneg l)
    (tok : String) : 0 ≤ (((findPos l tok).map Position.size).getD 0 : ℚ) := by
  cases h : findPos l tok with
  | none => simp
  | some q => simpa using hl tok q h

/-- A gate-passing signal with non-negative size keeps every position
size non-negative when recorded. -/
theorem record_preserves_nonneg (cfg : RiskConfig) (s : RiskState)
    (sig : TradeSignal) (hsz : 0 ≤ sig.size)
    (hck : check_signal cfg s sig = true) (hnn : PosNonneg s) :
    PosNonneg (record_trade s sig) := by
  rw [posNonneg_iff_ledger] at hnn
  rw [posNonneg_iff_ledger]
  cases sig with
  | buy token_id price size reason =>
    simp only [TradeSignal.size] at hsz
    simp only [record_trade]
    split
    · refine setPos_nonneg hnn ?_
      exact hsz
    · next old hold =>
      refine setPos_nonneg hnn ?_
      exact add_nonneg (hnn token_id old hold) hsz
  | sell token_id price size reason =>
    simp only [TradeSignal.size] at hsz
    have hok : ¬(posSize s token_id < size) := by
      simp only [check_signal] at hck
      split_ifs at hck with h1 h2 h3 h4
      all_goals first
        | exact h4
        | exact absurd hck (by simp)
    simp only [record_trade]
    split
    · exact hnn
    · next old hold =>
      have hsize : posSize s token_id = old.size := by
        simp [posSize, RiskState.getPosition, hold]
      rw [hsize] at hok
      refine setPos_nonneg hnn ?_
      have hle := not_lt.mp hok
      simp only
      linarith
  | arbitrage yes_token no_token yes_price no_price pps size =>
    simp only [TradeSignal.size] at hsz
    simp only [record_trade]
    have hl1 : LedgerNonneg (setPos s.positions yes_token
        ⟨(((findPos s.positions yes_token).map Position.size).getD 0) + size,
         yes_price,
         ((findPos s.positions yes_token).map Position.realized_pnl).getD 0⟩) := by
      refine setPos_nonneg hnn ?_
      exact add_nonneg (getD_size_nonneg hnn yes_token) hsz
    refine setPos_nonneg hl1 ?_
    exact add_nonneg (getD_size_nonneg hl1 no_token) hsz

/-- Along a gated sequence of non-negative-size signals, the ledger
keeps every position size non-negative. -/
theorem gated_nonneg (cfg : RiskConfig) :
    ∀ (sigs : List TradeSignal) (s : RiskState), PosNonneg s →
      (∀ sig ∈ sigs, 0 ≤ sig.size) → Gated cfg s sigs →
      PosNonneg (recordAll s sigs) := by
  intro sigs
  induction sigs with
  | nil =>
    intro s hnn _ _
    simpa [recordAll] using hnn
  | cons sig rest ih =>
    intro s hnn hsz hg
    obtain ⟨hck, hg2⟩ := hg
    have hstep := record_preserves_nonneg cfg s sig
      (hsz sig (List.mem_cons_self sig rest)) hck hnn
    simpa [recordAll] using ih (record_trade s sig) hstep
      (fun x hx => hsz x (List.mem_cons_of_mem sig hx)) hg2

/-- The gate rejects a Sell whose size exceeds the held position. -/
theorem check_sell_insufficient (cfg : RiskConfig) (s : RiskState)
    (tok : String) (price size : ℚ) (reason : String)
    (h : posSize s tok < size) :
    check_signal cfg s (.sell tok price size reason) = false := by
  simp only [check_signal]
  split_ifs with h1 h2 h3 h4
  all_goals first
    | rfl
    | exact absurd h h4

/-- C5 (amended): check_signal rejects any Sell whose size exceeds the
current position, and along every gated sequence of signals whose
sizes are all non-negative, no position size ever becomes negative.
(The non-negative-size proviso is forced: the gate admits a Buy of
negative size, which drives the position negative.) -/
theorem claim_C5_position_nonneg (cfg : RiskConfig) (s : RiskState)
    (sigs : List TradeSignal) (hnn : PosNonneg s)
    (hsz : ∀ sig ∈ sigs, 0 ≤ sig.size) (hg : Gated cfg s sigs) :
    PosNonneg (recordAll s sigs) ∧
    (∀ tok price size reason, posSize s tok < size →
      check_signal cfg s (.sell tok price size reason) = false) :=
  ⟨gated_nonneg cfg sigs s hnn hsz hg,
   fun tok price size reason h => check_sell_insufficient cfg s tok price size reason h⟩

/-- C5 counterexample: on a fresh ledger, a Buy of size -5 passes
check_signal (config 100/1000/500) and record_trade then stores a
position of size -5, violating position non-negativity as claimed. -/
theorem claim_C5_counterexample :
    check_signal ⟨100, 1000, 500⟩ ⟨[], 0, 0, 0, false⟩
      (.buy "t" (1/2) (-5) "r") = true ∧
    ∃ p, (record_trade ⟨[], 0, 0, 0, false⟩
        (.buy "t" (1/2) (-5) "r")).getPosition "t" = some p ∧ p.size < 0 := by
  constructor
  · norm_num [check_signal, posSize, RiskState.getPosition, findPos,
      TradeSignal.notional, List.find?]
  · refine ⟨⟨-5, 0, 0⟩, ?_, by norm_num⟩
    norm_num [record_trade, RiskState.getPosition, findPos, setPos, List.find?]

/-- Witness for C5 (amended) at a concrete gated sequence: buy 80 then
sell 30 of the same token, both passing the gate; the final position
is 50 and stays non-negative, and an oversized Sell is rejected. -/
theorem claim_C5_witness :
    (PosNonneg ⟨[], 0, 0, 0, false⟩ ∧
     (∀ sig ∈ [TradeSignal.buy "t" (1/2) 80 "r", TradeSignal.sell "t" (3/5) 30 "r"],
       0 ≤ sig.size) ∧
     Gated ⟨100, 1000, 500⟩ ⟨[], 0, 0, 0, false⟩
       [TradeSignal.buy "t" (1/2) 80 "r", TradeSignal.sell "t" (3/5) 30 "r"]) ∧
    PosNonneg (recordAll ⟨[], 0, 0, 0, false⟩
      [TradeSignal.buy "t" (1/2) 80 "r", TradeSignal.sell "t" (3/5) 30 "r"]) := by
  have hnn : PosNonneg ⟨[], 0, 0, 0, false⟩ := by
    intro tok p hp
    simp [RiskState.getPosition, findPos, List.find?] at hp
  have hsz : ∀ sig ∈ [TradeSignal.buy "t" (1/2) 80 "r",
      TradeSignal.sell "t" (3/5) 30 "r"], 0 ≤ sig.size := by
    intro sig hsig
    fin_cases hsig <;> norm_num [TradeSignal.size]
  have hg : Gated ⟨100, 1000, 500⟩ ⟨[], 0, 0, 0, false⟩
      [TradeSignal.buy "t" (1/2) 80 "r", TradeSignal.sell "t" (3/5) 30 "r"] := by
    refine ⟨?_, ?_, trivial⟩
    · norm_num [check_signal, posSize, RiskState.getPosition, findPos,
        TradeSignal.notional, List.find?]
    · norm_num [check_signal, posSize, RiskState.getPosition, findPos,
        TradeSignal.notional, List.find?, record_trade, setPos]
  exact ⟨⟨hnn, hsz, hg⟩,
    (claim_C5_position_nonneg _ _ _ hnn hsz hg).1⟩

/-! ### Market store writes and the feed path (market/data.rs, ws/handler.rs) -/

/-- Insert-or-replace on a string-keyed association list (DashMap
insert). -/
def assocSet {α : Type} (l : List (String × α)) (tok : String) (v : α) :
    List (String × α) :=
  match l with
  | [] => [(tok, v)]
  | (k, w) :: rest =>
    if k == tok then (k, v) :: rest else (k, w) :: assocSet rest tok v

/-- Lookup on a string-keyed association list (DashMap get). -/
def assocFind {α : Type} (l : List (String × α)) (tok : String) : Option α :=
  (l.find? (fun p => p.1 == tok)).map Prod.snd

theorem assocFind_set_self {α : Type} (l : List (String × α)) (tok : String)
    (v : α) : assocFind (assocSet l tok v) tok = some v := by
  induction l with
  | nil => simp [assocSet, assocFind, List.find?]
  | cons kv rest ih =>
    obtain ⟨k, w⟩ := kv
    by_cases h : k = tok
    · subst h
      simp [assocSet, assocFind, List.find?]
    · have hbeq : (k == tok) = false := beq_eq_false_iff_ne.mpr h
      simp [assocSet, assocFind, List.find?, hbeq] at ih ⊢
      exact ih

/-- The order-book half of the MarketData store: the token-to-book
map and the global last-update clock. -/
structure MarketStore where
  order_books : List (String × OrderBook)
  last_update_ns : ℕ
deriving DecidableEq, Repr

/-- MarketData.update_order_book from market/data.rs: build a book
from the given sides verbatim, stamp the wall clock (passed
explicitly), replace the stored book, bump the global clock.  No
validation of ordering or crossing is performed. -/
def MarketStore.update_order_book (st : MarketStore) (token_id : String)
    (bids asks : List DepthLevel) (now : ℕ) : MarketStore :=
  ⟨assocSet st.order_books token_id ⟨token_id, bids, asks, now⟩, now⟩

/-- MarketData.get_order_book from market/data.rs. -/
def MarketStore.get_order_book (st : MarketStore) (token_id : String) :
    Option OrderBook :=
  assocFind st.order_books token_id

/-- parse_price from ws/handler.rs: the numeric value of the decimal
string (None models an unparsable string); kept only when in [0, 1]. -/
def parse_price (s : Option ℚ) : Option ℚ :=
  s.bind fun price => if 0 ≤ price ∧ price ≤ 1 then some price else none

/-- parse_size from ws/handler.rs: kept only when positive. -/
def parse_size (s : Option ℚ) : Option ℚ :=
  s.bind fun size => if 0 < size then some size else none

/-- A book message from the wire: asset id plus raw (price, size)
level pairs, each number already read from its decimal string. -/
structure BookUpdate where
  asset_id : String
  bids : List (Option ℚ × Option ℚ)
  asks : List (Option ℚ × Option ℚ)

/-- The level-filtering filter_map of handle_book_update. -/
def parseLevels (raw : List (Option ℚ × Option ℚ)) : List DepthLevel :=
  raw.filterMap fun p =>
    (parse_price p.1).bind fun price =>
      (parse_size p.2).map fun size => ⟨price, size⟩

/-- WebSocketHandler::handle_book_update from ws/handler.rs: parse and
filter all depth levels, then store the full book.  (The redundant
top-of-book update_price call touches only the price map, not the
order books modelled here.) -/
def handle_book_update (st : MarketStore) (upd : BookUpdate) (now : ℕ) :
    MarketStore :=
  st.update_order_book upd.asset_id (parseLevels upd.bids) (parseLevels upd.asks) now

/-- C6 counterexample: the feed path stores a crossed book verbatim.
A book message with one valid bid at 0.9 and one valid ask at 0.1
passes parsing and is stored with best_bid greater than best_ask,
contradicting the claim that no crossed book is ever stored. -/
theorem claim_C6_counterexample :
    (handle_book_update ⟨[], 0⟩ ⟨"t", [(some (9/10), some 1)], [(some (1/10), some 1)]⟩
        5).get_order_book "t" =
      some ⟨"t", [⟨9/10, 1⟩], [⟨1/10, 1⟩], 5⟩ ∧
    ((OrderBook.mk "t" [⟨9/10, 1⟩] [⟨1/10, 1⟩] 5).best_bid = some (9/10) ∧
     (OrderBook.mk "t" [⟨9/10, 1⟩] [⟨1/10, 1⟩] 5).best_ask = some (1/10) ∧
     ¬((9/10 : ℚ) < 1/10)) := by
  constructor
  · norm_num [handle_book_update, MarketStore.update_order_book,
      MarketStore.get_order_book, parseLevels, parse_price, parse_size,
      assocSet, assocFind, List.find?, List.filterMap]
  · refine ⟨rfl, rfl, by norm_num⟩

/-- C6 (amended): update_order_book stores the supplied sides verbatim
with the write-time clock as timestamp, and performs no validation; the
feed path stores exactly the parsed-and-filtered levels.  Hence the
stored book satisfies the ordering and no-crossing invariants precisely
when the supplied lists do, and its timestamp exceeds that of a prior write
precisely when the clock advanced. -/
theorem claim_C6_book_update (st : MarketStore) (token : String)
    (bids asks : List DepthLevel) (now : ℕ) :
    ((st.update_order_book token bids asks now).get_order_book token =
      some ⟨token, bids, asks, now⟩) ∧
    (∀ upd : BookUpdate, (handle_book_update st upd now).get_order_book upd.asset_id =
      some ⟨upd.asset_id, parseLevels upd.bids, parseLevels upd.asks, now⟩) ∧
    (bids.Pairwise (fun a c => c.price ≤ a.price) →
     asks.Pairwise (fun a c => a.price ≤ c.price) →
     (∀ b0 a0, bids.head? = some b0 → asks.head? = some a0 → b0.price < a0.price) →
     ∀ b, (st.update_order_book token bids asks now).get_order_book token = some b →
       b.bids.Pairwise (fun a c => c.price ≤ a.price) ∧
       b.asks.Pairwise (fun a c => a.price ≤ c.price) ∧
       (∀ pb pa, b.best_bid = some pb → b.best_ask = some pa → pb < pa) ∧
       (∀ old, st.get_order_book token = some old → old.timestamp_ns < now →
         old.timestamp_ns < b.timestamp_ns)) := by
  have hstore : (st.update_order_book token bids asks now).get_order_book token =
      some ⟨token, bids, asks, now⟩ := by
    unfold MarketStore.update_order_book MarketStore.get_order_book
    exact assocFind_set_self _ _ _
  refine ⟨hstore, ?_, ?_⟩
  · intro upd
    unfold handle_book_update MarketStore.update_order_book MarketStore.get_order_book
    exact assocFind_set_self _ _ _
  · intro hb ha hcross b hbeq
    rw [hstore] at hbeq
    cases Option.some.inj hbeq
    refine ⟨hb, ha, ?_, fun old _ hlt => hlt⟩
    intro pb pa hpb hpa
    simp only [OrderBook.best_bid, OrderBook.best_ask] at hpb hpa
    cases hbids : bids with
    | nil => rw [hbids] at hpb; simp at hpb
    | cons b0 brest =>
      cases hasks : asks with
      | nil => rw [hasks] at hpa; simp at hpa
      | cons a0 arest =>
        rw [hbids] at hpb
        rw [hasks] at hpa
        simp only [List.head?_cons, Option.map_some] at hpb hpa
        cases Option.some.inj hpb
        cases Option.some.inj hpa
        exact hcross b0 a0 (by rw [hbids]; rfl) (by rw [hasks]; rfl)

/-- Witness for C6 (amended) at a concrete sorted, uncrossed book. -/
theorem claim_C6_witness :
    (([DepthLevel.mk (1/2) 1].Pairwise (fun a c => c.price ≤ a.price)) ∧
     ([DepthLevel.mk (3/5) 1].Pairwise (fun a c => a.price ≤ c.price)) ∧
     (∀ b0 a0, [DepthLevel.mk (1/2) 1].head? = some b0 →
        [DepthLevel.mk (3/5) 1].head? = some a0 → b0.price < a0.price)) ∧
    ((MarketStore.mk [] 0).update_order_book "t" [⟨1/2, 1⟩] [⟨3/5, 1⟩] 5).get_order_book "t" =
      some ⟨"t", [⟨1/2, 1⟩], [⟨3/5, 1⟩], 5⟩ ∧
    (∀ pb pa, (OrderBook.mk "t" [⟨1/2, 1⟩] [⟨3/5, 1⟩] 5).best_bid = some pb →
      (OrderBook.mk "t" [⟨1/2, 1⟩] [⟨3/5, 1⟩] 5).best_ask = some pa → pb < pa) := by
  have hb : ([DepthLevel.mk (1/2) 1].Pairwise (fun a c => c.price ≤ a.price)) := by
    simp
  have ha : ([DepthLevel.mk (3/5) 1].Pairwise (fun a c => a.price ≤ c.price)) := by
    simp
  have hcross : ∀ b0 a0, [DepthLevel.mk (1/2) 1].head? = some b0 →
      [DepthLevel.mk (3/5) 1].head? = some a0 → b0.price < a0.price := by
    intro b0 a0 h1 h2
    cases Option.some.inj h1
    cases Option.some.inj h2
    norm_num
  obtain ⟨h1, h2, h3⟩ := claim_C6_book_update ⟨[], 0⟩ "t" [⟨1/2, 1⟩] [⟨3/5, 1⟩] 5
  refine ⟨⟨hb, ha, hcross⟩, h1, ?_⟩
  exact fun pb pa hpb hpa => ((h3 hb ha hcross _ h1).2.2.1) pb pa hpb hpa

/-! ### Arbitrage handling in the engine (strategy/engine.rs) -/

/-- What publish_arb_trade_to_redis publishes as P&L: edge times size
exactly when the status string starts with FILLED.  Rust
str::starts_with is modelled as a prefix test on the character
sequences of the two strings. -/
def publish_arb_pnl (status : String) (edge size : ℚ) : Option ℚ :=
  if "FILLED".data.isPrefixOf status.data then some (edge * size) else none

/-- The observable outcome of the Arbitrage branch of
StrategyEngine::handle_signal: whether record_trade ran, the published
status string, the published P&L, and whether any cancel was issued
(the branch contains no cancel call). -/
structure ArbOutcome where
  recorded : Bool
  status : String
  published_pnl : Option ℚ
  cancel_called : Bool
deriving DecidableEq

/-- The Arbitrage branch of handle_signal as a function of the two leg
results: record and publish FILLED with P&L if both succeed, publish
the FAILED status without P&L otherwise; never cancel. -/
def handle_arbitrage (profit_per_share size : ℚ)
    (buy_yes buy_no : Except String String) : ArbOutcome :=
  match buy_yes, buy_no with
  | .ok _, .ok _ =>
    ⟨true, "FILLED", publish_arb_pnl "FILLED" profit_per_share size, false⟩
  | .error e, _ =>
    ⟨false, "FAILED: " ++ e, publish_arb_pnl ("FAILED: " ++ e) profit_per_share size,
     false⟩
  | .ok _, .error e =>
    ⟨false, "FAILED: " ++ e, publish_arb_pnl ("FAILED: " ++ e) profit_per_share size,
     false⟩

theorem failed_not_filled (e : String) :
    ("FILLED".data.isPrefixOf ("FAILED: " ++ e).data) = false := by
  have hdata : ("FAILED: " ++ e).data = "FAILED: ".data ++ e.data := by
    simp [String.data_append]
  rw [hdata]
  simp [List.isPrefixOf]

/-- C7: in the Arbitrage handling of the engine, record_trade runs exactly
when both single-leg buys succeed; on success the published status is
FILLED with P&L equal to edge times size; on either leg failing the
status is the FAILED string carrying the error of the leg, no P&L is
published, and the surviving leg is not cancelled. -/
theorem claim_C7_arbitrage (profit_per_share size : ℚ)
    (buy_yes buy_no : Except String String) :
    ((handle_arbitrage profit_per_share size buy_yes buy_no).recorded = true ↔
      (∃ y, buy_yes = .ok y) ∧ (∃ n, buy_no = .ok n)) ∧
    ((∃ y, buy_yes = .ok y) → (∃ n, buy_no = .ok n) →
      (handle_arbitrage profit_per_share size buy_yes buy_no).status = "FILLED" ∧
      (handle_arbitrage profit_per_share size buy_yes buy_no).published_pnl =
        some (profit_per_share * size)) ∧
    (((∃ e, buy_yes = .error e) ∨ (∃ e, buy_no = .error e)) →
      (∃ e, (handle_arbitrage profit_per_share size buy_yes buy_no).status =
        "FAILED: " ++ e) ∧
      (handle_arbitrage profit_per_share size buy_yes buy_no).published_pnl = none ∧
      (handle_arbitrage profit_per_share size buy_yes buy_no).cancel_called = false) := by
  cases buy_yes with
  | ok y =>
    cases buy_no with
    | ok n =>
      refine ⟨by simp [handle_arbitrage], ?_, ?_⟩
      · intro _ _
        constructor
        · rfl
        · simp [handle_arbitrage, publish_arb_pnl, List.isPrefixOf]
      · rintro (⟨e, he⟩ | ⟨e, he⟩) <;> exact absurd he (by simp)
    | error e =>
      refine ⟨by simp [handle_arbitrage], ?_, ?_⟩
      · rintro _ ⟨n, hn⟩
        exact absurd hn (by simp)
      · intro _
        refine ⟨⟨e, rfl⟩, ?_, rfl⟩
        simp [handle_arbitrage, publish_arb_pnl, failed_not_filled]
  | error e =>
    refine ⟨by simp [handle_arbitrage], ?_, ?_⟩
    · rintro ⟨y, hy⟩
      exact absurd hy (by simp)
    · intro _
      refine ⟨⟨e, rfl⟩, ?_, rfl⟩
      simp [handle_arbitrage, publish_arb_pnl, failed_not_filled]

/-- Witness for C7: both legs succeed, yielding a recorded FILLED
trade with P&L 0.04 times 100; and with a failed NO leg the status is
the FAILED string with no P&L and no cancel. -/
theorem claim_C7_witness :
    ((∃ y, (Except.ok "y1" : Except String String) = .ok y) ∧
     (∃ n, (Except.ok "n1" : Except String String) = .ok n)) ∧
    (handle_arbitrage (1/25) 100 (.ok "y1") (.ok "n1")).status = "FILLED" ∧
    (handle_arbitrage (1/25) 100 (.ok "y1") (.ok "n1")).published_pnl =
      some ((1/25) * 100) ∧
    ((handle_arbitrage (1/25) 100 (.ok "y1") (.error "timeout")).published_pnl = none ∧
     (handle_arbitrage (1/25) 100 (.ok "y1") (.error "timeout")).cancel_called = false) := by
  obtain ⟨h1, h2, h3⟩ := claim_C7_arbitrage (1/25) 100 (.ok "y1") (.ok "n1")
  obtain ⟨h4, h5, h6⟩ := claim_C7_arbitrage (1/25) 100 (.ok "y1") (.error "timeout")
  obtain ⟨hst, hpnl⟩ := h2 ⟨"y1", rfl⟩ ⟨"n1", rfl⟩
  obtain ⟨_, hpn2, hcc2⟩ := h6 (Or.inr ⟨"timeout", rfl⟩)
  exact ⟨⟨⟨"y1", rfl⟩, ⟨"n1", rfl⟩⟩, hst, hpnl, hpn2, hcc2⟩

/-! ### Clipper strategy (strategy/clipper.rs) -/

/-- ClipperConfig from engine config.rs. -/
structure ClipperConfig where
  enabled : Bool
  min_profit : ℚ
  max_position : ℚ
  max_notional : ℚ
deriving DecidableEq, Repr

/-- ClipperStrategy::calculate_size: the lesser of max_position and
the shares affordable within max_notional. -/
def calculate_size (cfg : ClipperConfig) (yes_ask no_ask : ℚ) : ℚ :=
  min cfg.max_position (cfg.max_notional / (yes_ask + no_ask))

/-- The pair loop of ClipperStrategy::scan_markets: for each pair take
both top-of-book asks (skipping pairs lacking either), compute
net_profit = (1 - total_cost) - total_cost * 0.01, and return the
first Arbitrage whose net profit reaches min_profit. -/
def scanPairs (cfg : ClipperConfig) (v : MarketView) :
    List (String × MarketPair) → Option TradeSignal
  | [] => none
  | (_, pair) :: rest =>
    match v.get_ask pair.yes_token, v.get_ask pair.no_token with
    | some yes_ask, some no_ask =>
      if 1 - (yes_ask + no_ask) - (yes_ask + no_ask) * (1/100) ≥ cfg.min_profit then
        some (.arbitrage pair.yes_token pair.no_token yes_ask no_ask
          (1 - (yes_ask + no_ask) - (yes_ask + no_ask) * (1/100))
          (calculate_size cfg yes_ask no_ask))
      else scanPairs cfg v rest
    | some _, none => scanPairs cfg v rest
    | none, _ => scanPairs cfg v rest

/-- ClipperStrategy::scan_markets over the registered pairs. -/
def scan_markets (cfg : ClipperConfig) (v : MarketView) : Option TradeSignal :=
  scanPairs cfg v v.pairs

/-- A pair on which the clipper fires: both asks present and the net
profit after the 1-percent-of-cost fee reaches min_profit. -/
def clipperQualifies (cfg : ClipperConfig) (v : MarketView) (pair : MarketPair) :
    Prop :=
  ∃ ya na, v.get_ask pair.yes_token = some ya ∧ v.get_ask pair.no_token = some na ∧
    cfg.min_profit ≤ 1 - (ya + na) - (ya + na) * (1/100)

theorem scanPairs_isSome_iff (cfg : ClipperConfig) (v : MarketView) :
    ∀ ps : List (String × MarketPair),
      (scanPairs cfg v ps).isSome ↔ ∃ entry ∈ ps, clipperQualifies cfg v entry.2 := by
  intro ps
  induction ps with
  | nil => simp [scanPairs]
  | cons entry rest ih =>
    obtain ⟨mid, pair⟩ := entry
    cases hya : v.get_ask pair.yes_token with
    | none =>
      rw [show scanPairs cfg v ((mid, pair) :: rest) = scanPairs cfg v rest by
        simp only [scanPairs, hya]]
      rw [ih]
      constructor
      · rintro ⟨e, he, hq⟩
        exact ⟨e, List.mem_cons_of_mem _ he, hq⟩
      · rintro ⟨e, he, hq⟩
        rcases List.mem_cons.mp he with rfl | he2
        · obtain ⟨ya, na, h1, h2, h3⟩ := hq
          rw [hya] at h1
          exact absurd h1 (by simp)
        · exact ⟨e, he2, hq⟩
    | some ya =>
      cases hna : v.get_ask pair.no_token with
      | none =>
        rw [show scanPairs cfg v ((mid, pair) :: rest) = scanPairs cfg v rest by
          simp only [scanPairs, hya, hna]]
        rw [ih]
        constructor
        · rintro ⟨e, he, hq⟩
          exact ⟨e, List.mem_cons_of_mem _ he, hq⟩
        · rintro ⟨e, he, hq⟩
          rcases List.mem_cons.mp he with rfl | he2
          · obtain ⟨ya2, na2, h1, h2, h3⟩ := hq
            rw [hna] at h2
            exact absurd h2 (by simp)
          · exact ⟨e, he2, hq⟩
      | some na =>
        by_cases hth : 1 - (ya + na) - (ya + na) * (1/100) ≥ cfg.min_profit
        · rw [show scanPairs cfg v ((mid, pair) :: rest) =
            some (.arbitrage pair.yes_token pair.no_token ya na
              (1 - (ya + na) - (ya + na) * (1/100))
              (calculate_size cfg ya na)) by
            simp only [scanPairs, hya, hna]
            rw [if_pos hth]]
          simp only [Option.isSome_some, true_iff]
          exact ⟨(mid, pair), List.mem_cons_self _ _, ya, na, hya, hna, hth⟩
        · rw [show scanPairs cfg v ((mid, pair) :: rest) = scanPairs cfg v rest by
            simp only [scanPairs, hya, hna]
            rw [if_neg hth]]
          rw [ih]
          constructor
          · rintro ⟨e, he, hq⟩
            exact ⟨e, List.mem_cons_of_mem _ he, hq⟩
          · rintro ⟨e, he, hq⟩
            rcases List.mem_cons.mp he with rfl | he2
            · obtain ⟨ya2, na2, h1, h2, h3⟩ := hq
              rw [hya] at h1
              rw [hna] at h2
              cases Option.some.inj h1
              cases Option.some.inj h2
              exact absurd h3 hth
            · exact ⟨e, he2, hq⟩

theorem scanPairs_eq_some (cfg : ClipperConfig) (v : MarketView) :
    ∀ (ps : List (String × MarketPair)) (sig : TradeSignal),
      scanPairs cfg v ps = some sig →
      ∃ entry ∈ ps, ∃ ya na,
        v.get_ask entry.2.yes_token = some ya ∧
        v.get_ask entry.2.no_token = some na ∧
        cfg.min_profit ≤ 1 - (ya + na) - (ya + na) * (1/100) ∧
        sig = .arbitrage entry.2.yes_token entry.2.no_token ya na
          (1 - (ya + na) - (ya + na) * (1/100))
          (min cfg.max_position (cfg.max_notional / (ya + na))) := by
  intro ps
  induction ps with
  | nil => intro sig h; exact absurd h (by simp [scanPairs])
  | cons entry rest ih =>
    obtain ⟨mid, pair⟩ := entry
    intro sig h
    cases hya : v.get_ask pair.yes_token with
    | none =>
      rw [show scanPairs cfg v ((mid, pair) :: rest) = scanPairs cfg v rest by
        simp only [scanPairs, hya]] at h
      obtain ⟨e, he, rest_h⟩ := ih sig h
      exact ⟨e, List.mem_cons_of_mem _ he, rest_h⟩
    | some ya =>
      cases hna : v.get_ask pair.no_token with
      | none =>
        rw [show scanPairs cfg v ((mid, pair) :: rest) = scanPairs cfg v rest by
          simp only [scanPairs, hya, hna]] at h
        obtain ⟨e, he, rest_h⟩ := ih sig h
        exact ⟨e, List.mem_cons_of_mem _ he, rest_h⟩
      | some na =>
        by_cases hth : 1 - (ya + na) - (ya + na) * (1/100) ≥ cfg.min_profit
        · rw [show scanPairs cfg v ((mid, pair) :: rest) =
            some (.arbitrage pair.yes_token pair.no_token ya na
              (1 - (ya + na) - (ya + na) * (1/100))
              (calculate_size cfg ya na)) by
            simp only [scanPairs, hya, hna]
            rw [if_pos hth]] at h
          refine ⟨(mid, pair), List.mem_cons_self _ _, ya, na, hya, hna, hth, ?_⟩
          exact (Option.some.inj h).symm
        · rw [show scanPairs cfg v ((mid, pair) :: rest) = scanPairs cfg v rest by
            simp only [scanPairs, hya, hna]
            rw [if_neg hth]] at h
          obtain ⟨e, he, rest_h⟩ := ih sig h
          exact ⟨e, List.mem_cons_of_mem _ he, rest_h⟩

/-- C8 (amended): the clipper emits an Arbitrage signal exactly when
some pair has both top-of-book asks present and net profit
1 - (yes_ask + no_ask) - 0.01 * (yes_ask + no_ask) at least
min_profit (the fee is one percent of the total cost, not a flat
0.01); the emitted signal carries yes_price = yes_ask,
no_price = no_ask, profit_per_share equal to that net profit, and
size = min(max_position, max_notional / (yes_ask + no_ask)). -/
theorem claim_C8_clipper (cfg : ClipperConfig) (v : MarketView) :
    ((scan_markets cfg v).isSome ↔
      ∃ entry ∈ v.pairs, clipperQualifies cfg v entry.2) ∧
    (∀ sig, scan_markets cfg v = some sig →
      ∃ entry ∈ v.pairs, ∃ ya na,
        v.get_ask entry.2.yes_token = some ya ∧
        v.get_ask entry.2.no_token = some na ∧
        cfg.min_profit ≤ 1 - (ya + na) - (ya + na) * (1/100) ∧
        sig = .arbitrage entry.2.yes_token entry.2.no_token ya na
          (1 - (ya + na) - (ya + na) * (1/100))
          (min cfg.max_position (cfg.max_notional / (ya + na)))) :=
  ⟨scanPairs_isSome_iff cfg v v.pairs, fun sig h => scanPairs_eq_some cfg v v.pairs sig h⟩

/-- Clipper test fixture: asks 0.45 and 0.50 on the registered pair. -/
def c8view : MarketView :=
  ⟨[("m1", testPair)], [],
   [("yt", ⟨11/25, 9/20, 89/200, 1/100, 0⟩),
    ("nt", ⟨49/100, 1/2, 99/200, 1/100, 0⟩)], 0⟩

/-- C8 counterexample: with min_profit = 0.0401 and asks 0.45/0.50 the
code emits (its net profit is 0.0405 = 1 - 0.95 - 0.01*0.95) although
the claimed profit formula 1 - 0.95 - 0.01 = 0.04 is below min_profit;
and the emitted profit_per_share 0.0405 differs from the claimed 0.04. -/
theorem claim_C8_counterexample :
    scan_markets ⟨true, 401/10000, 100, 50⟩ c8view =
      some (.arbitrage "yt" "nt" (9/20) (1/2) (81/2000) (1000/19)) ∧
    (1 - (9/20 + 1/2) - 1/100 : ℚ) < 401/10000 ∧
    (81/2000 : ℚ) ≠ 1 - (9/20 + 1/2) - 1/100 := by
  refine ⟨?_, by norm_num, by norm_num⟩
  have hy : c8view.get_ask testPair.yes_token = some (9/20) := rfl
  have hn : c8view.get_ask testPair.no_token = some (1/2) := rfl
  show scanPairs _ c8view [("m1", testPair)] = _
  simp only [scanPairs, hy, hn]
  rw [if_pos (by norm_num)]
  norm_num [calculate_size, min_def, testPair]

/-- Witness for C8 (amended) at the 0.45/0.50 fixture with min_profit
0.01: the scan emits, matching the characterization. -/
theorem claim_C8_witness :
    scan_markets ⟨true, 1/100, 100, 50⟩ c8view =
      some (.arbitrage "yt" "nt" (9/20) (1/2) (81/2000) (1000/19)) ∧
    ((scan_markets ⟨true, 1/100, 100, 50⟩ c8view).isSome ↔
      ∃ entry ∈ c8view.pairs, clipperQualifies ⟨true, 1/100, 100, 50⟩ c8view entry.2) ∧
    (∃ entry ∈ c8view.pairs, ∃ ya na,
      c8view.get_ask entry.2.yes_token = some ya ∧
      c8view.get_ask entry.2.no_token = some na ∧
      (1/100 : ℚ) ≤ 1 - (ya + na) - (ya + na) * (1/100) ∧
      (TradeSignal.arbitrage "yt" "nt" (9/20) (1/2) (81/2000) (1000/19) : TradeSignal) =
        .arbitrage entry.2.yes_token entry.2.no_token ya na
          (1 - (ya + na) - (ya + na) * (1/100))
          (min (100 : ℚ) (50 / (ya + na)))) := by
  have hscan : scan_markets ⟨true, 1/100, 100, 50⟩ c8view =
      some (.arbitrage "yt" "nt" (9/20) (1/2) (81/2000) (1000/19)) := by
    have hy : c8view.get_ask testPair.yes_token = some (9/20) := rfl
    have hn : c8view.get_ask testPair.no_token = some (1/2) := rfl
    show scanPairs _ c8view [("m1", testPair)] = _
    simp only [scanPairs, hy, hn]
    rw [if_pos (by norm_num)]
    norm_num [calculate_size, min_def, testPair]
  obtain ⟨h1, h2⟩ := claim_C8_clipper ⟨true, 1/100, 100, 50⟩ c8view
  exact ⟨hscan, h1, h2 _ hscan⟩

/-! ### Sniper strategy (strategy/sniper.rs) -/

/-- SniperConfig from engine config.rs (the polling fields are not
used by evaluate). -/
structure SniperConfig where
  enabled : Bool
  min_price : ℚ
  max_price : ℚ
  order_size : ℚ
  min_profit : ℚ
deriving DecidableEq, Repr

/-- The only mutable state of the sniper: the cache of game ids already
sniped (a HashSet in the source). -/
structure SniperState where
  sniped_games : List String
deriving DecidableEq, Repr

/-- SniperStrategy::already_sniped. -/
def already_sniped (st : SniperState) (game_id : String) : Bool :=
  st.sniped_games.contains game_id

/-- SniperStrategy::mark_sniped.  In the source this function carries
allow(dead_code) and is called only from the test module, never from
evaluate. -/
def mark_sniped (st : SniperState) (game_id : String) : SniperState :=
  ⟨game_id :: st.sniped_games⟩

/-- The reason string of the Buy emitted by the sniper; the numeric formatting of
the expected profit into the string is not modelled. -/
def sniperReason (expected_profit : ℚ) : String :=
  "time_arb: EV"

/-- SniperStrategy::find_opportunity: the ask of the winning token must lie
in [min_price, max_price] and leave at least min_profit of upside. -/
def find_opportunity (cfg : SniperConfig) (winning_token : String)
    (v : MarketView) : Option TradeSignal :=
  (v.get_ask winning_token).bind fun ask =>
  if ask < cfg.min_price ∨ ask > cfg.max_price then none
  else if 1 - ask < cfg.min_profit then none
  else some (.buy winning_token ask cfg.order_size (sniperReason (1 - ask)))

/-- The market loop of SniperStrategy::evaluate: skip already-sniped
markets, probe the YES leg of each remaining market, return the first
opportunity. -/
def sniperScan (cfg : SniperConfig) (st : SniperState) (v : MarketView) :
    List (String × MarketPair) → Option TradeSignal
  | [] => none
  | (market_id, pair) :: rest =>
    if already_sniped st market_id then sniperScan cfg st v rest
    else
      match find_opportunity cfg pair.yes_token v with
      | some sig => some sig
      | none => sniperScan cfg st v rest

/-- SniperStrategy::evaluate from strategy/sniper.rs.  The receiver is
an immutable borrow: evaluate returns only the optional signal and
leaves the sniped-games set untouched; no call to mark_sniped occurs
anywhere in the evaluation path. -/
def sniperEvaluate (cfg : SniperConfig) (st : SniperState) (v : MarketView) :
    Option TradeSignal :=
  sniperScan cfg st v v.pairs

/-- Sniper test fixture: one market whose YES ask is stale at 0.90. -/
def c9view : MarketView :=
  ⟨[("m1", testPair)], [], [("yt", ⟨22/25, 9/10, 89/100, 1/50, 0⟩)], 0⟩

/-- Default-like sniper configuration. -/
def c9cfg : SniperConfig := ⟨true, 1/2, 99/100, 10, 1/20⟩

/-- C9 failing input: evaluate emits a Buy for market m1, but never
inserts m1 into the sniped-games set (mark_sniped is dead code), so
the state after the emission equals the state before it and the next
evaluate call emits the same Buy for the same market again.  The
second conjunct shows the guard would have suppressed the signal had
mark_sniped been invoked. -/
theorem claim_C9_sniper_reemission :
    sniperEvaluate c9cfg ⟨[]⟩ c9view =
      some (.buy "yt" (9/10) 10 (sniperReason (1 - 9/10))) ∧
    sniperEvaluate c9cfg (mark_sniped ⟨[]⟩ "m1") c9view = none := by
  constructor
  · norm_num [sniperEvaluate, sniperScan, find_opportunity, already_sniped,
      MarketView.get_ask, c9view, c9cfg, testPair, List.find?, List.contains,
      sniperReason]
  · norm_num [sniperEvaluate, sniperScan, find_opportunity, already_sniped,
      mark_sniped, MarketView.get_ask, c9view, c9cfg, testPair, List.find?,
      List.contains]

/-! ### Paper trading simulator (execution/paper.rs) -/

/-- Side from execution/order_manager.rs. -/
inductive Side where
  | buy
  | sell
deriving DecidableEq, Repr

/-- PaperFill from execution/paper.rs. -/
structure PaperFill where
  token_id : String
  side : Side
  price : ℚ
  size : ℚ
  timestamp_ns : ℕ
deriving DecidableEq, Repr

/-- PaperArbTrade from execution/paper.rs. -/
structure PaperArbTrade where
  yes_fill : PaperFill
  no_fill : PaperFill
  gross_profit : ℚ
  net_profit : ℚ
  timestamp_ns : ℕ
deriving DecidableEq, Repr

/-- The state of PaperTrader: fill log, arb-trade log, cumulative
realized P&L stored as an UNSIGNED integer cents counter (AtomicU64 in
the source, modelled as Nat), trade count, and the fee rate. -/
structure PaperState where
  fills : List PaperFill
  arb_trades : List PaperArbTrade
  total_pnl_cents : ℕ
  trade_count : ℕ
  fee_rate : ℚ
deriving DecidableEq, Repr

/-- Rust f64-to-u64 conversion: negative values saturate to zero,
positive values truncate. -/
def ratToU64 (q : ℚ) : ℕ :=
  if q ≤ 0 then 0 else q.floor.toNat

/-- PaperTrader::simulate_buy: fill at the buy VWAP of the live book
and append the fill to the log; on a missing book or empty VWAP the
state is unchanged. -/
def simulate_buy (st : PaperState) (v : MarketView) (token_id : String)
    (target_size : ℚ) (now : ℕ) : Option PaperFill × PaperState :=
  match v.get_order_book token_id with
  | none => (none, st)
  | some book =>
    match book.vwap_buy target_size with
    | none => (none, st)
    | some vwap =>
      (some ⟨token_id, .buy, vwap.vwap, vwap.total_size, now⟩,
       { st with fills := st.fills ++ [⟨token_id, .buy, vwap.vwap, vwap.total_size, now⟩] })

/-- PaperTrader::simulate_arb_trade: buy both legs, compute gross and
net profit at the actually fillable size, log the trade and add
(net_profit * 100) cast to u64 to the cents counter.  A first-leg
failure leaves the first fill logged (as in the source, where the push
precedes the early return of the second leg). -/
def simulate_arb_trade (st : PaperState) (v : MarketView)
    (yes_token no_token : String) (target_size : ℚ) (now : ℕ) :
    Option PaperArbTrade × PaperState :=
  match simulate_buy st v yes_token target_size now with
  | (none, st1) => (none, st1)
  | (some yes_fill, st1) =>
    match simulate_buy st1 v no_token target_size now with
    | (none, st2) => (none, st2)
    | (some no_fill, st2) =>
      (some ⟨yes_fill, no_fill,
        min yes_fill.size no_fill.size -
          (yes_fill.price * min yes_fill.size no_fill.size +
           no_fill.price * min yes_fill.size no_fill.size),
        min yes_fill.size no_fill.size -
          (yes_fill.price * min yes_fill.size no_fill.size +
           no_fill.price * min yes_fill.size no_fill.size) -
          (yes_fill.price * min yes_fill.size no_fill.size +
           no_fill.price * min yes_fill.size no_fill.size) * st2.fee_rate,
        now⟩,
       { st2 with
         arb_trades := st2.arb_trades ++ [⟨yes_fill, no_fill,
           min yes_fill.size no_fill.size -
             (yes_fill.price * min yes_fill.size no_fill.size +
              no_fill.price * min yes_fill.size no_fill.size),
           min yes_fill.size no_fill.size -
             (yes_fill.price * min yes_fill.size no_fill.size +
              no_fill.price * min yes_fill.size no_fill.size) -
             (yes_fill.price * min yes_fill.size no_fill.size +
              no_fill.price * min yes_fill.size no_fill.size) * st2.fee_rate,
           now⟩],
         total_pnl_cents := st2.total_pnl_cents + ratToU64
           ((min yes_fill.size no_fill.size -
             (yes_fill.price * min yes_fill.size no_fill.size +
              no_fill.price * min yes_fill.size no_fill.size) -
             (yes_fill.price * min yes_fill.size no_fill.size +
              no_fill.price * min yes_fill.size no_fill.size) * st2.fee_rate) * 100),
         trade_count := st2.trade_count + 1 })

/-- PaperTrader::get_pnl: the cents counter in dollars. -/
def get_pnl (st : PaperState) : ℚ :=
  (st.total_pnl_cents : ℚ) / 100

/-- One simulate_arb_trade call, keeping only the state. -/
def simStep (v : MarketView) (st : PaperState) (req : String × String × ℚ × ℕ) :
    PaperState :=
  (simulate_arb_trade st v req.1 req.2.1 req.2.2.1 req.2.2.2).2

/-- A sequence of simulated arbitrage trades. -/
def runPaper (v : MarketView) (st : PaperState)
    (reqs : List (String × String × ℚ × ℕ)) : PaperState :=
  reqs.foldl (simStep v) st

theorem ratToU64_neg_mul (q : ℚ) (h : q < 0) : ratToU64 (q * 100) = 0 := by
  unfold ratToU64
  rw [if_pos (by nlinarith : q * 100 ≤ 0)]

theorem simulate_buy_pnl (st : PaperState) (v : MarketView) (tok : String)
    (ts : ℚ) (now : ℕ) :
    (simulate_buy st v tok ts now).2.total_pnl_cents = st.total_pnl_cents := by
  unfold simulate_buy
  split
  · rfl
  · split
    · rfl
    · rfl

theorem simStep_pnl_mono (v : MarketView) (st : PaperState)
    (req : String × String × ℚ × ℕ) :
    st.total_pnl_cents ≤ (simStep v st req).total_pnl_cents := by
  unfold simStep simulate_arb_trade
  split
  · next st1 heq =>
    have h1 : st1.total_pnl_cents = st.total_pnl_cents := by
      have haux := simulate_buy_pnl st v req.1 req.2.2.1 req.2.2.2
      rw [heq] at haux
      simpa using haux
    simp [h1]
  · next yes_fill st1 heq =>
    have h1 : st1.total_pnl_cents = st.total_pnl_cents := by
      have haux := simulate_buy_pnl st v req.1 req.2.2.1 req.2.2.2
      rw [heq] at haux
      simpa using haux
    split
    · next st2 heq2 =>
      have h2 : st2.total_pnl_cents = st1.total_pnl_cents := by
        have haux := simulate_buy_pnl st1 v req.2.1 req.2.2.1 req.2.2.2
        rw [heq2] at haux
        simpa using haux
      simp [h1, h2]
    · next no_fill st2 heq2 =>
      have h2 : st2.total_pnl_cents = st1.total_pnl_cents := by
        have haux := simulate_buy_pnl st1 v req.2.1 req.2.2.1 req.2.2.2
        rw [heq2] at haux
        simpa using haux
      simp only
      omega

theorem runPaper_pnl_mono (v : MarketView) :
    ∀ (reqs : List (String × String × ℚ × ℕ)) (st : PaperState),
      st.total_pnl_cents ≤ (runPaper v st reqs).total_pnl_cents := by
  intro reqs
  induction reqs with
  | nil => intro st; simp [runPaper]
  | cons req rest ih =>
    intro st
    have h1 := simStep_pnl_mono v st req
    have h2 := ih (simStep v st req)
    simpa [runPaper] using le_trans h1 h2

/-- C10: the cumulative P&L counter of the paper trader is an unsigned
cents counter; an arbitrage simulation whose net profit is negative
adds zero (the loss is dropped), so get_pnl is non-negative and
non-decreasing across any sequence of simulated arbitrage trades. -/
theorem claim_C10_paper_pnl (v : MarketView) (st : PaperState)
    (reqs : List (String × String × ℚ × ℕ)) :
    (∀ yes no target now trade st2,
      simulate_arb_trade st v yes no target now = (some trade, st2) →
      trade.net_profit < 0 →
      st2.total_pnl_cents = st.total_pnl_cents) ∧
    0 ≤ get_pnl (runPaper v st reqs) ∧
    get_pnl st ≤ get_pnl (runPaper v st reqs) := by
  refine ⟨?_, ?_, ?_⟩
  · intro yes no target now trade st2 heq hneg
    unfold simulate_arb_trade at heq
    split at heq
    · next st1 hbuy =>
      exact absurd (congrArg Prod.fst heq) (by simp)
    · next yes_fill st1 hbuy =>
      have h1 : st1.total_pnl_cents = st.total_pnl_cents := by
        have haux := simulate_buy_pnl st v yes target now
        rw [hbuy] at haux
        simpa using haux
      split at heq
      · next st2a hbuy2 =>
        exact absurd (congrArg Prod.fst heq) (by simp)
      · next no_fill st2a hbuy2 =>
        have h2 : st2a.total_pnl_cents = st1.total_pnl_cents := by
          have haux := simulate_buy_pnl st1 v no target now
          rw [hbuy2] at haux
          simpa using haux
        have htr := congrArg Prod.fst heq
        have hst := congrArg Prod.snd heq
        simp only at htr hst
        obtain htr2 := Option.some.inj htr
        subst htr2
        subst hst
        simp only at hneg ⊢
        rw [ratToU64_neg_mul _ hneg]
        omega
  · unfold get_pnl
    positivity
  · unfold get_pnl
    have h := runPaper_pnl_mono v reqs st
    have hcast : (st.total_pnl_cents : ℚ) ≤ ((runPaper v st reqs).total_pnl_cents : ℚ) := by
      exact_mod_cast h
    apply div_le_div_of_nonneg_right hcast
    norm_num

/-- Paper-trading fixture: both legs ask 0.60, so the arbitrage loses
money (net profit -10.6 on 50 shares). -/
def c10view : MarketView :=
  ⟨[], [("yt", ⟨"yt", [], [⟨3/5, 100⟩], 0⟩), ("nt", ⟨"nt", [], [⟨3/5, 100⟩], 0⟩)],
   [], 0⟩

/-- Fresh paper trader with a 1 percent fee. -/
def c10state : PaperState := ⟨[], [], 0, 0, 1/100⟩

/-- The losing arbitrage trade at the fixture. -/
def c10trade : PaperArbTrade :=
  ⟨⟨"yt", .buy, 3/5, 50, 0⟩, ⟨"nt", .buy, 3/5, 50, 0⟩, -10, -53/5, 0⟩

/-- The paper state after the losing trade: fills and trade logged,
cents counter unchanged at zero. -/
def c10state2 : PaperState :=
  ⟨[⟨"yt", .buy, 3/5, 50, 0⟩, ⟨"nt", .buy, 3/5, 50, 0⟩], [c10trade], 0, 1, 1/100⟩

/-- Witness for C10: the losing trade adds zero cents, and the P&L
stays at zero, non-negative and non-decreasing. -/
theorem claim_C10_witness :
    (simulate_arb_trade c10state c10view "yt" "nt" 50 0 = (some c10trade, c10state2) ∧
     c10trade.net_profit < 0) ∧
    c10state2.total_pnl_cents = c10state.total_pnl_cents ∧
    0 ≤ get_pnl (runPaper c10view c10state [("yt", "nt", 50, 0)]) ∧
    get_pnl c10state ≤ get_pnl (runPaper c10view c10state [("yt", "nt", 50, 0)]) := by
  have hbY : c10view.get_order_book "yt" = some ⟨"yt", [], [⟨3/5, 100⟩], 0⟩ := rfl
  have hbN : c10view.get_order_book "nt" = some ⟨"nt", [], [⟨3/5, 100⟩], 0⟩ := rfl
  have heq : simulate_arb_trade c10state c10view "yt" "nt" 50 0 =
      (some c10trade, c10state2) := by
    norm_num [simulate_arb_trade, simulate_buy, hbY, hbN, OrderBook.vwap_buy,
      vwapLoop, min_def, c10state, c10trade, c10state2, ratToU64]
  have hneg : c10trade.net_profit < 0 := by norm_num [c10trade]
  obtain ⟨h1, h2, h3⟩ := claim_C10_paper_pnl c10view c10state [("yt", "nt", 50, 0)]
  exact ⟨⟨heq, hneg⟩, h1 _ _ _ _ _ _ heq hneg, h2, h3⟩

end PolyBot
